import Mathlib

/-!
Verification development for `vitest-browser-astro`: a shallow embedding of
the browser-side mount machinery (`src/pure.ts`), the Vite plugin transforms
(`src/plugin.ts`), the `render` entry point (`src/index.ts`), and the
cross-runtime render command, together with theorems settling the frozen
claims about the natural-language specification.
-/

namespace VBA

/-! ## Decimal rendering of natural numbers

JavaScript template interpolation of an integer (as in the cache-busting
query parameter appended in `setHTMLWithScripts`) renders it in decimal.
`decRepr` is a fuel-based decimal renderer; `decDigitsVal` reads the digit
list back, which yields injectivity. -/

/-- The character for a single decimal digit. -/
def digitChar (d : Nat) : Char := Char.ofNat (48 + d)

/-- Decimal digits of `n`, least significant first; `fuel` bounds recursion. -/
def decDigits (fuel n : Nat) : List Char :=
  match fuel with
  | 0 => []
  | fuel + 1 =>
    if n < 10 then [digitChar n]
    else digitChar (n % 10) :: decDigits fuel (n / 10)

/-- Decimal rendering of a natural number, as JS string interpolation does. -/
def decRepr (n : Nat) : String := String.mk (decDigits (n + 1) n).reverse

/-- Numeric value of a digit character. -/
def charVal (c : Char) : Nat := c.toNat - 48

/-- Value of a least-significant-first digit list. -/
def decDigitsVal : List Char → Nat
  | [] => 0
  | c :: cs => charVal c + 10 * decDigitsVal cs

/-! ## DOM node model

`setHTMLWithScripts` in `src/pure.ts` operates on a parsed DOM subtree: it
collects every `<script>` element (in `querySelectorAll` document order,
i.e. preorder), records its `src`/`type` attributes and text content,
removes the script elements, appends the remaining subtree to the container,
and then re-creates fresh script elements in the original order, attaching a
`_t=<Date.now()>` query parameter to any truthy `src`.  HTML text parsing
itself (`temp.innerHTML = html` / `createContextualFragment`) is the
browser's; the embedding starts from the parsed node list. -/

/-- A parsed DOM node: an element with tag, attributes and children, or text. -/
inductive Node where
  | elem (tag : String) (attrs : List (String × String)) (children : List Node)
  | text (s : String)
deriving Repr

/-- `getAttribute` over an attribute list: first binding wins, `none` is JS `null`. -/
def getAttrL (attrs : List (String × String)) (name : String) : Option String :=
  match attrs with
  | [] => none
  | (k, v) :: rest => if k == name then some v else getAttrL rest name

/-- JS truthiness of a `getAttribute`/`textContent` result: `null` and `""` are falsy. -/
def truthyStr : Option String → Bool
  | none => false
  | some s => !s.isEmpty

/-- `textContent`: concatenation of all descendant text, document order. -/
def textContentList (ns : List Node) : String :=
  match ns with
  | [] => ""
  | .text s :: rest => s ++ textContentList rest
  | .elem _ _ ch :: rest => textContentList ch ++ textContentList rest
termination_by sizeOf ns
decreasing_by all_goals simp_arith [Node.elem.sizeOf_spec]

/-- The data `setHTMLWithScripts` records for one script element. -/
structure ScriptData where
  src : Option String
  type : Option String
  textContent : String
deriving Repr

/-- All script elements in `querySelectorAll` document order (preorder),
with their `src`/`type` attributes and text content. -/
def collectScripts (ns : List Node) : List ScriptData :=
  match ns with
  | [] => []
  | .elem tag attrs ch :: rest =>
    (if tag == "script"
      then [⟨getAttrL attrs "src", getAttrL attrs "type", textContentList ch⟩]
      else [])
      ++ collectScripts ch ++ collectScripts rest
  | .text _ :: rest => collectScripts rest
termination_by sizeOf ns
decreasing_by all_goals simp_arith [Node.elem.sizeOf_spec]

/-- Remove every script element, at any depth (`script.remove()` on each
element found by `querySelectorAll`). -/
def stripScripts (ns : List Node) : List Node :=
  match ns with
  | [] => []
  | .elem tag attrs ch :: rest =>
    if tag == "script" then stripScripts rest
    else .elem tag attrs (stripScripts ch) :: stripScripts rest
  | .text s :: rest => .text s :: stripScripts rest
termination_by sizeOf ns
decreasing_by all_goals simp_arith [Node.elem.sizeOf_spec]

/-- `true` when no script element occurs anywhere in the forest. -/
def noScriptsList (ns : List Node) : Bool :=
  match ns with
  | [] => true
  | .elem tag _ ch :: rest => tag != "script" && noScriptsList ch && noScriptsList rest
  | .text _ :: rest => noScriptsList rest
termination_by sizeOf ns
decreasing_by all_goals simp_arith [Node.elem.sizeOf_spec]

/-- The cache-defeating URL: `src + separator + "_t=" + Date.now()`, where the
separator is `&` when the URL already has a query string and `?` otherwise. -/
def cacheBust (src : String) (now : Nat) : String :=
  let separator := if src.data.contains '?' then "&" else "?"
  src ++ separator ++ "_t=" ++ decRepr now

/-- The fresh script element created for one recorded `ScriptData`:
`type` is set when truthy, `src` (with the timestamp parameter) when truthy,
and the text content when non-empty. -/
def mkScript (now : Nat) (d : ScriptData) : Node :=
  let typeAttrs := match d.type with
    | some t => if t.isEmpty then [] else [("type", t)]
    | none => []
  let srcAttrs := match d.src with
    | some s => if s.isEmpty then [] else [("src", cacheBust s now)]
    | none => []
  let children := if d.textContent.isEmpty then [] else [Node.text d.textContent]
  Node.elem "script" (typeAttrs ++ srcAttrs) children

/-- The tag of a node (text nodes have none). -/
def nodeTag : Node → String
  | .elem t _ _ => t
  | .text _ => ""

/-- `getAttribute` on a node. -/
def nodeAttr : Node → String → Option String
  | .elem _ attrs _, a => getAttrL attrs a
  | .text _, _ => none

/-- `textContent` of a single node. -/
def nodeText (n : Node) : String := textContentList [n]

/-- `setHTMLWithScripts(container, html)` from `src/pure.ts`, at the level of
the container's child list: parse `html` into `temp` (here: the already
parsed forest), record every script's data, remove the scripts, append the
remaining forest to the container, then append one fresh script element per
recorded script.  `now` stands for `Date.now()` during this call. -/
def setHTMLWithScripts (containerChildren : List Node) (html : List Node)
    (now : Nat) : List Node :=
  let temp := html
  let scriptData := collectScripts temp
  let stripped := stripScripts temp
  let afterFragment := containerChildren ++ stripped
  scriptData.foldl (fun acc d => acc ++ [mkScript now d]) afterFragment

/-! ## Browser mount state: registry, containers, attachment

`src/pure.ts` keeps a module-level `mountedContainers : Set<HTMLElement>`.
Elements are modelled by numeric ids; `document.body` is `bodyId`.  The
child→parent edges of the document tree are an association list, container
child lists are an association list (first binding wins), and `nextId`
allocates fresh elements (`document.createElement`). -/

/-- The id of `document.body`. -/
def bodyId : Nat := 0

/-- The browser-side mutable state touched by `pure.ts`. -/
structure BrowserState where
  registry : List Nat
  edges : List (Nat × Nat)
  content : List (Nat × List Node)
  nextId : Nat
deriving Repr

/-- Look up the parent of a child in the edge list: first binding wins. -/
def lookupParent (edges : List (Nat × Nat)) (c : Nat) : Option Nat :=
  match edges with
  | [] => none
  | (a, b) :: rest => if a == c then some b else lookupParent rest c

/-- `element.parentNode`, as an id. -/
def parentOf (s : BrowserState) (c : Nat) : Option Nat :=
  lookupParent s.edges c

/-- Look up an element's stored child list: first binding wins. -/
def lookupContent (content : List (Nat × List Node)) (c : Nat) :
    Option (List Node) :=
  match content with
  | [] => none
  | (a, cs) :: rest => if a == c then some cs else lookupContent rest c

/-- The child list of an element (absent entries read as empty). -/
def getContent (s : BrowserState) (c : Nat) : List Node :=
  (lookupContent s.content c).getD []

/-- Replace the child list of an element. -/
def setContent (s : BrowserState) (c : Nat) (cs : List Node) : BrowserState :=
  { s with content := (c, cs) :: s.content }

/-- Detach an element from its parent (`removeChild`). -/
def removeEdge (s : BrowserState) (c : Nat) : BrowserState :=
  { s with edges := s.edges.filter (fun p => !(p.1 == c)) }

/-- Whether `e` sits under the document: chase parent edges to `bodyId`. -/
def attachedUnder (edges : List (Nat × Nat)) (fuel : Nat) (e : Nat) : Bool :=
  if e == bodyId then true
  else
    match fuel with
    | 0 => false
    | fuel + 1 =>
      match lookupParent edges e with
      | some p => attachedUnder edges fuel p
      | none => false

/-- `e` is attached under the document in state `s`. -/
def attachedB (s : BrowserState) (e : Nat) : Bool :=
  attachedUnder s.edges (s.edges.length + 1) e

/-- `setupContainer(baseElement?, container?)`: default the base to
`document.body`; when no container is supplied, create a fresh `div` and
append it to the base.  A caller-supplied container is used as passed. -/
def setupContainer (s : BrowserState) (baseOpt containerOpt : Option Nat) :
    BrowserState × Nat × Nat :=
  let base := baseOpt.getD bodyId
  match containerOpt with
  | some c => (s, c, base)
  | none =>
    let c := s.nextId
    ({ s with
        edges := (c, base) :: s.edges
        content := (c, []) :: s.content
        nextId := s.nextId + 1 }, c, base)

/-- `createRenderResult`: add the container to `mountedContainers` (a `Set`,
so insertion is idempotent). -/
def createRenderResult (s : BrowserState) (c : Nat) : BrowserState :=
  if c ∈ s.registry then s else { s with registry := c :: s.registry }

/-- `injectHTML(html, options)`: set up the container, inject the markup via
`setHTMLWithScripts`, register the container; returns the container id. -/
def injectHTML (s : BrowserState) (html : List Node) (now : Nat)
    (baseOpt containerOpt : Option Nat) : BrowserState × Nat :=
  let (s1, c, _base) := setupContainer s baseOpt containerOpt
  let s2 := setContent s1 c (setHTMLWithScripts (getContent s1 c) html now)
  (createRenderResult s2 c, c)

/-- The `unmount` closure from `createRenderResult`: clear the container's
contents, delete it from `mountedContainers`, and remove it from the
document only when its parent is exactly `document.body`. -/
def unmount (s : BrowserState) (c : Nat) : BrowserState :=
  let s1 := setContent s c []
  let s2 := { s1 with registry := s1.registry.erase c }
  if parentOf s2 c == some bodyId then removeEdge s2 c else s2

/-- One iteration of `cleanup`'s `forEach`: clear contents, detach when
parented directly under `document.body`. -/
def cleanupStep (s : BrowserState) (c : Nat) : BrowserState :=
  let s1 := setContent s c []
  if parentOf s1 c == some bodyId then removeEdge s1 c else s1

/-- `cleanup()`: run the per-container teardown over every registered
container, then clear the registry. -/
def cleanup (s : BrowserState) : BrowserState :=
  let s1 := s.registry.foldl cleanupStep s
  { s1 with registry := [] }

/-- Well-formedness: every id mentioned by the state is below `nextId`, and
`bodyId` is already allocated, so `nextId` is fresh. -/
def stateWF (s : BrowserState) : Bool :=
  decide (bodyId < s.nextId)
    && s.registry.all (fun c => c < s.nextId)
    && s.edges.all (fun p => p.1 < s.nextId && p.2 < s.nextId)
    && s.content.all (fun q => q.1 < s.nextId)

/-- The spec's registry invariant: every registered container is attached
under the document. -/
def registryAttachedInv (s : BrowserState) : Bool :=
  s.registry.all (fun c => attachedB s c)

/-- Default-usage discipline: every registered container's parent is exactly
`document.body` (the shape produced by `render()` without container or
baseElement options). -/
def registryUnderBodyInv (s : BrowserState) : Bool :=
  s.registry.all (fun c => parentOf s c == some bodyId)

/-! ## Hydration wait

`waitForHydration(container, timeout = 5000)` polls
`container.querySelectorAll("astro-island[ssr]").length` every 50 ms and
throws once the elapsed time exceeds the timeout while the count is still
nonzero.  The scope's DOM evolves while waiting (hydration removes the
`ssr` attribute), so the model takes a snapshot of the scope per poll;
poll `k` happens at elapsed time `pollIntervalMs * k`. -/

/-- An attribute is present (`[ssr]` selector) regardless of its value. -/
def hasAttr (attrs : List (String × String)) (name : String) : Bool :=
  (getAttrL attrs name).isSome

/-- Count of `astro-island[ssr]` elements in a forest, preorder. -/
def countIslands (ns : List Node) : Nat :=
  match ns with
  | [] => 0
  | .elem tag attrs ch :: rest =>
    (if tag == "astro-island" && hasAttr attrs "ssr" then 1 else 0)
      + countIslands ch + countIslands rest
  | .text _ :: rest => countIslands rest
termination_by sizeOf ns
decreasing_by all_goals simp_arith [Node.elem.sizeOf_spec]

/-- The polling interval of `waitForHydration` (ms). -/
def pollIntervalMs : Nat := 50

/-- The default `timeout` parameter of `waitForHydration` (ms). -/
def waitForHydrationDefaultTimeout : Nat := 5000

/-- The error message thrown on hydration timeout. -/
def hydrationMsg (remaining timeout : Nat) : String :=
  "Hydration timeout: " ++ decRepr remaining
    ++ " island(s) still have \x27ssr\x27 attribute after " ++ decRepr timeout ++ "ms"

/-- Outcome of a `waitForHydration` run: resolution after `polls` checks, or
a thrown timeout error carrying the remaining island count and message. -/
inductive HydrationOutcome where
  | resolved (polls : Nat)
  | timedOut (remaining : Nat) (msg : String)
deriving Repr

/-- The `waitForHydration` loop: at poll `k` (elapsed `50*k` ms), resolve
when the island count is zero; otherwise throw once the elapsed time exceeds
`timeout`; otherwise sleep 50 ms and poll again.  `fuel` bounds the loop;
`none` means the fuel ran out before the loop settled. -/
def waitForHydrationRun (counts : Nat → Nat) (timeout : Nat) :
    Nat → Nat → Option HydrationOutcome
  | 0, _ => none
  | fuel + 1, k =>
    if counts k = 0 then some (.resolved k)
    else if pollIntervalMs * k > timeout then
      some (.timedOut (counts k) (hydrationMsg (counts k) timeout))
    else waitForHydrationRun counts timeout fuel (k + 1)

/-- Island counts read off per-poll snapshots of the scope's subtree. -/
def islandCounts (snapshots : Nat → List Node) (k : Nat) : Nat :=
  countIslands (snapshots k)

/-! ## Vite plugin transforms (`src/plugin.ts`)

`astroRenderer` returns two plugins.  The `enforce: "pre"` one prepends the
`// astro-head-inject` marker to `.astro` modules loaded for SSR; the
`enforce: "post"` one replaces `.astro` modules loaded for the browser with
a metadata module.  Both return `null` (here `none`) otherwise. -/

/-- One hex digit, upper-case as `JSON.stringify` emits for `\u00XX`. -/
def hexDigit (d : Nat) : Char :=
  if d < 10 then Char.ofNat (48 + d) else Char.ofNat (55 + d)

/-- `JSON.stringify` escaping of one character inside a string literal. -/
def jsonEscapeChar (c : Char) : List Char :=
  if c == '"' then ['\\', '"']
  else if c == '\\' then ['\\', '\\']
  else if c == Char.ofNat 8 then ['\\', 'b']
  else if c == Char.ofNat 9 then ['\\', 't']
  else if c == Char.ofNat 10 then ['\\', 'n']
  else if c == Char.ofNat 12 then ['\\', 'f']
  else if c == Char.ofNat 13 then ['\\', 'r']
  else if c.toNat < 32 then
    ['\\', 'u', '0', '0', hexDigit (c.toNat / 16), hexDigit (c.toNat % 16)]
  else [c]

/-- `JSON.stringify` applied to a string. -/
def jsonStringify (s : String) : String :=
  String.mk ('"' :: (s.data.flatMap jsonEscapeChar ++ ['"']))

/-- `String.prototype.endsWith`, as a character-list suffix test. -/
def strEndsWith (s suffix : String) : Bool :=
  suffix.data.isSuffixOf s.data

/-- The marker comment the pre plugin prepends for SSR loads. -/
def headInjectMarker : String := "// astro-head-inject\n"

/-- `enforce` of the first (`vitest:astro-renderer:pre`) plugin. -/
def preEnforce : String := "pre"

/-- `enforce` of the second (`vitest:astro-renderer`) plugin. -/
def postEnforce : String := "post"

/-- The `transform` hook of the pre plugin: prepend the marker to `.astro`
modules loaded for SSR, pass everything else through (`none`). -/
def astroRendererPreTransform (code id : String) (ssr : Bool) : Option String :=
  if strEndsWith id ".astro" && ssr then some (headInjectMarker ++ code)
  else none

/-- The metadata module the post plugin emits for a browser-side load of an
`.astro` module (the template literal of `plugin.ts`, after `.trim()`). -/
def metadataModule (id : String) : String :=
  "export default \x7b\n\t__astroComponent: true,\n\t__path: "
    ++ jsonStringify id
    ++ ",\n\t__name: \"default\",\n\x7d;"

/-- The `transform` hook of the post plugin: replace browser-side `.astro`
imports by the metadata module, pass everything else through (`none`). -/
def astroRendererPostTransform (_code id : String) (ssr : Bool) : Option String :=
  if strEndsWith id ".astro" && !ssr then some (metadataModule id)
  else none

/-! ## JS values, module exports, and the component lookup

A first-order model of the JavaScript values that flow through `render`
props and module exports.  Numbers are modelled as integers. -/

/-- The serializable JS value domain (plus functions, which `devalue`
rejects). -/
inductive Value where
  | vnull
  | vbool (b : Bool)
  | vnum (n : Int)
  | vstr (s : String)
  | vdate (ms : Int)
  | vregexp (source flags : String)
  | varr (xs : List Value)
  | vobj (fields : List (String × Value))
  | vmap (pairs : List (Value × Value))
  | vset (xs : List Value)
  | vfunc (id : Nat)

/-- JS truthiness: `null`, `false`, `0` and `""` are falsy; every object
(array, date, regexp, map, set, function) is truthy. -/
def truthy : Value → Bool
  | .vnull => false
  | .vbool b => b
  | .vnum n => n != 0
  | .vstr s => !s.isEmpty
  | _ => true

/-- Property access on a field list; `none` is JS `undefined`. -/
def getProp (fields : List (String × Value)) (k : String) : Option Value :=
  match fields with
  | [] => none
  | (a, v) :: rest => if a == k then some v else getProp rest k

/-- Truthiness of a property access result (`undefined` is falsy). -/
def truthyProp (fields : List (String × Value)) (k : String) : Bool :=
  match getProp fields k with
  | some v => truthy v
  | none => false

/-- A loaded ES module: its exports in insertion order. -/
def Module := List (String × Value)

/-- `componentModule.default || componentModule[componentName]` from the
`renderAstro` command: the default export when truthy, else the named
export when truthy, else nothing. -/
def locateComponent (m : Module) (componentName : String) : Option Value :=
  match getProp m "default" with
  | some d =>
    if truthy d then some d
    else match getProp m componentName with
      | some v => if truthy v then some v else none
      | none => none
  | none =>
    match getProp m componentName with
    | some v => if truthy v then some v else none
    | none => none

/-- The `Component not found` error message, naming the resolved path and
the module's export names (`Object.keys(componentModule).join(", ")`). -/
def componentNotFoundMsg (absolutePath : String) (m : Module) : String :=
  "Component not found for " ++ absolutePath ++ ". Available exports: "
    ++ String.intercalate ", " (m.map (fun p => p.1))

/-- The component-lookup step of the `renderAstro` browser command: the
located component, or the thrown error message. -/
def renderAstroLookup (absolutePath : String) (m : Module)
    (componentName : String) : Except String Value :=
  match locateComponent m componentName with
  | some c => Except.ok c
  | none => Except.error (componentNotFoundMsg absolutePath m)

/-! ## Serialization codec

Modelled from the spec: the codec itself is the external `devalue` package
(`stringify` in `src/index.ts`, `parse` in `src/plugin.ts`), whose source is
not part of this repository.  Per the spec's contract (§4.2), `encode` maps
the serializable value domain (plain objects/arrays/strings/numbers/
booleans/null, `Date`, `RegExp`, `Map`, `Set`) to a string, fails with a
`SerializationError` on any value graph containing a function, and `decode`
is its exact inverse. -/

mutual

/-- Does the value graph contain a function anywhere? -/
def containsFunc (v : Value) : Bool :=
  match v with
  | .vnull | .vbool _ | .vnum _ | .vstr _ | .vdate _ | .vregexp _ _ => false
  | .varr xs => containsFuncList xs
  | .vobj fs => containsFuncFields fs
  | .vmap ps => containsFuncPairs ps
  | .vset xs => containsFuncList xs
  | .vfunc _ => true

/-- `containsFunc` over a list of values. -/
def containsFuncList (xs : List Value) : Bool :=
  match xs with
  | [] => false
  | x :: xs => containsFunc x || containsFuncList xs

/-- `containsFunc` over object fields. -/
def containsFuncFields (fs : List (String × Value)) : Bool :=
  match fs with
  | [] => false
  | (_, v) :: fs => containsFunc v || containsFuncFields fs

/-- `containsFunc` over map entries. -/
def containsFuncPairs (ps : List (Value × Value)) : Bool :=
  match ps with
  | [] => false
  | (k, v) :: ps => containsFunc k || containsFunc v || containsFuncPairs ps

end

/-- Unary length marker: `n` ones then a colon. -/
def encNat (n : Nat) : List Char := List.replicate n '1' ++ [':']

/-- Encoded integer: a sign character then a unary magnitude. -/
def encInt : Int → List Char
  | .ofNat n => '+' :: encNat n
  | .negSucc n => '-' :: encNat n

/-- Length-prefixed string payload. -/
def encStr (s : String) : List Char := encNat s.data.length ++ s.data

mutual

/-- Tagged encoding of a value. -/
def encodeV (v : Value) : List Char :=
  match v with
  | .vnull => ['n']
  | .vbool true => ['t']
  | .vbool false => ['f']
  | .vnum i => 'i' :: encInt i
  | .vstr s => 's' :: encStr s
  | .vdate ms => 'd' :: encInt ms
  | .vregexp src flags => 'r' :: (encStr src ++ encStr flags)
  | .varr xs => 'a' :: (encNat xs.length ++ encodeList xs)
  | .vobj fs => 'o' :: (encNat fs.length ++ encodeFields fs)
  | .vmap ps => 'm' :: (encNat ps.length ++ encodePairs ps)
  | .vset xs => 'e' :: (encNat xs.length ++ encodeList xs)
  | .vfunc id => 'x' :: encNat id

/-- Encoding of a list of values, concatenated. -/
def encodeList (xs : List Value) : List Char :=
  match xs with
  | [] => []
  | x :: xs => encodeV x ++ encodeList xs

/-- Encoding of object fields: name then value, concatenated. -/
def encodeFields (fs : List (String × Value)) : List Char :=
  match fs with
  | [] => []
  | (k, v) :: fs => encStr k ++ encodeV v ++ encodeFields fs

/-- Encoding of map entries: key then value, concatenated. -/
def encodePairs (ps : List (Value × Value)) : List Char :=
  match ps with
  | [] => []
  | (k, v) :: ps => encodeV k ++ encodeV v ++ encodePairs ps

end

mutual

/-- Node count of a value graph; a lower bound for the decoder fuel. -/
def vsize (v : Value) : Nat :=
  match v with
  | .vnull | .vbool _ | .vnum _ | .vstr _ | .vdate _ | .vregexp _ _ | .vfunc _ => 1
  | .varr xs => vsizeList xs + 1
  | .vobj fs => vsizeFields fs + 1
  | .vmap ps => vsizePairs ps + 1
  | .vset xs => vsizeList xs + 1

/-- `vsize` summed over a list of values. -/
def vsizeList (xs : List Value) : Nat :=
  match xs with
  | [] => 0
  | x :: xs => vsize x + vsizeList xs + 1

/-- `vsize` summed over object fields. -/
def vsizeFields (fs : List (String × Value)) : Nat :=
  match fs with
  | [] => 0
  | (_, v) :: fs => vsize v + vsizeFields fs + 1

/-- `vsize` summed over map entries. -/
def vsizePairs (ps : List (Value × Value)) : Nat :=
  match ps with
  | [] => 0
  | (k, v) :: ps => vsize k + vsize v + vsizePairs ps + 1

end

/-- Read back a unary length marker. -/
def decNat : List Char → Option (Nat × List Char)
  | ':' :: cs => some (0, cs)
  | '1' :: cs => (decNat cs).map (fun p => (p.1 + 1, p.2))
  | _ => none

/-- Read back an integer. -/
def decInt : List Char → Option (Int × List Char)
  | '+' :: cs => (decNat cs).map (fun p => ((p.1 : Int), p.2))
  | '-' :: cs => (decNat cs).map (fun p => (Int.negSucc p.1, p.2))
  | _ => none

/-- Split off exactly `n` characters, if available. -/
def decTake (n : Nat) (cs : List Char) : Option (List Char × List Char) :=
  if n ≤ cs.length then some (cs.take n, cs.drop n) else none

/-- Read back a length-prefixed string. -/
def decStr (cs : List Char) : Option (String × List Char) :=
  match decNat cs with
  | some (n, cs1) =>
    (decTake n cs1).map (fun p => (String.mk p.1, p.2))
  | none => none

/-- What the decoder is asked to read next: one value, or a counted run of
values, fields, or key/value entries. -/
inductive DecReq where
  | one
  | listN (n : Nat)
  | fieldsN (n : Nat)
  | pairsN (n : Nat)

/-- The decoder's result, matching the request shape. -/
inductive DecRes where
  | one (v : Value)
  | many (xs : List Value)
  | fields (fs : List (String × Value))
  | pairs (ps : List (Value × Value))

/-- The fuel-bounded decoder (dispatching on the tag character for single
values); a single function so that recursion is structural on the fuel. -/
def decodeM : Nat → DecReq → List Char → Option (DecRes × List Char)
  | _, .listN 0, cs => some (.many [], cs)
  | _, .fieldsN 0, cs => some (.fields [], cs)
  | _, .pairsN 0, cs => some (.pairs [], cs)
  | 0, _, _ => none
  | fuel + 1, .listN (n + 1), cs =>
    match decodeM fuel .one cs with
    | some (.one v, cs1) =>
      match decodeM fuel (.listN n) cs1 with
      | some (.many xs, cs2) => some (.many (v :: xs), cs2)
      | _ => none
    | _ => none
  | fuel + 1, .fieldsN (n + 1), cs =>
    match decStr cs with
    | some (k, cs1) =>
      match decodeM fuel .one cs1 with
      | some (.one v, cs2) =>
        match decodeM fuel (.fieldsN n) cs2 with
        | some (.fields fs, cs3) => some (.fields ((k, v) :: fs), cs3)
        | _ => none
      | _ => none
    | none => none
  | fuel + 1, .pairsN (n + 1), cs =>
    match decodeM fuel .one cs with
    | some (.one k, cs1) =>
      match decodeM fuel .one cs1 with
      | some (.one v, cs2) =>
        match decodeM fuel (.pairsN n) cs2 with
        | some (.pairs ps, cs3) => some (.pairs ((k, v) :: ps), cs3)
        | _ => none
      | _ => none
    | _ => none
  | fuel + 1, .one, cs =>
    match cs with
    | [] => none
    | c :: cs =>
      if c == 'n' then some (.one .vnull, cs)
      else if c == 't' then some (.one (.vbool true), cs)
      else if c == 'f' then some (.one (.vbool false), cs)
      else if c == 'i' then (decInt cs).map (fun p => (.one (.vnum p.1), p.2))
      else if c == 's' then (decStr cs).map (fun p => (.one (.vstr p.1), p.2))
      else if c == 'd' then (decInt cs).map (fun p => (.one (.vdate p.1), p.2))
      else if c == 'r' then
        match decStr cs with
        | some (src, cs1) =>
          (decStr cs1).map (fun p => (.one (.vregexp src p.1), p.2))
        | none => none
      else if c == 'a' then
        match decNat cs with
        | some (n, cs1) =>
          match decodeM fuel (.listN n) cs1 with
          | some (.many xs, cs2) => some (.one (.varr xs), cs2)
          | _ => none
        | none => none
      else if c == 'o' then
        match decNat cs with
        | some (n, cs1) =>
          match decodeM fuel (.fieldsN n) cs1 with
          | some (.fields fs, cs2) => some (.one (.vobj fs), cs2)
          | _ => none
        | none => none
      else if c == 'm' then
        match decNat cs with
        | some (n, cs1) =>
          match decodeM fuel (.pairsN n) cs1 with
          | some (.pairs ps, cs2) => some (.one (.vmap ps), cs2)
          | _ => none
        | none => none
      else if c == 'e' then
        match decNat cs with
        | some (n, cs1) =>
          match decodeM fuel (.listN n) cs1 with
          | some (.many xs, cs2) => some (.one (.vset xs), cs2)
          | _ => none
        | none => none
      else if c == 'x' then (decNat cs).map (fun p => (.one (.vfunc p.1), p.2))
      else none
termination_by structural fuel _ _ => fuel

/-- Fuel-bounded decoder for one value. -/
def decodeV (fuel : Nat) (cs : List Char) : Option (Value × List Char) :=
  match decodeM fuel .one cs with
  | some (.one v, rest) => some (v, rest)
  | _ => none

/-- The codec's error on unsupported values. -/
inductive SerializationError where
  | functionValue
deriving Repr, DecidableEq

/-- `encode(value)`: fails on function-bearing graphs, else the encoded
string (devalue `stringify`). -/
def encode (v : Value) : Except SerializationError String :=
  if containsFunc v then Except.error SerializationError.functionValue
  else Except.ok (String.mk (encodeV v))

/-- `decode(string)`: the exact inverse (devalue `parse`); fails unless the
whole string is consumed. -/
def decode (s : String) : Option Value :=
  match decodeV s.data.length s.data with
  | some (v, []) => some v
  | _ => none

/-! ## The `render` entry point (`src/index.ts`)

`render(component, options)` first checks the `__astroComponent`
discriminator on the (transformed) import, then serializes the props, and
only then dispatches the `renderAstro` browser command with
`(metadata.__path, metadata.__name, serializedProps, options.slots)`. -/

/-- The fixed message thrown when the discriminator check fails. -/
def notAnAstroComponentMsg : String :=
  "Not an Astro component. Make sure you imported an .astro file and the vitest-browser-astro plugin is configured."

/-- `metadata?.__astroComponent` is truthy: only an object value can carry
the discriminator flag. -/
def astroComponentFlag (v : Value) : Bool :=
  match v with
  | .vobj fields => truthyProp fields "__astroComponent"
  | _ => false

/-- Errors the browser-side `render` can raise before dispatching. -/
inductive RenderError where
  | notAComponent (msg : String)
  | serializationFailed (e : SerializationError)
deriving Repr

/-- The arguments `render` hands to `commands.renderAstro`; producing this
value is the dispatch of the cross-runtime command. -/
structure DispatchArgs where
  path : Option Value
  name : Option Value
  serializedProps : Option String
  slots : List (String × String)

/-- The browser-side `render` pipeline up to the command dispatch: validate
the discriminator, serialize the props with the codec, then dispatch. -/
def render (component : Value) (props : Option (List (String × Value)))
    (slots : List (String × String)) : Except RenderError DispatchArgs :=
  match component with
  | .vobj fields =>
    if truthyProp fields "__astroComponent" then
      match props with
      | some ps =>
        match encode (.vobj ps) with
        | Except.ok s => Except.ok ⟨getProp fields "__path", getProp fields "__name", some s, slots⟩
        | Except.error e => Except.error (RenderError.serializationFailed e)
      | none => Except.ok ⟨getProp fields "__path", getProp fields "__name", none, slots⟩
    else Except.error (RenderError.notAComponent notAnAstroComponentMsg)
  | _ => Except.error (RenderError.notAComponent notAnAstroComponentMsg)

/-! ## Substring containment (for error-message claims) -/

/-- `pat` occurs at the head of `l`. -/
def headMatch (pat l : List Char) : Bool :=
  l.take pat.length == pat

/-- `pat` occurs somewhere in `l`. -/
def occursIn (pat l : List Char) : Bool :=
  match l with
  | [] => pat == []
  | _ :: rest => headMatch pat l || occursIn pat rest

/-- String containment, as the message claims use it. -/
def strContains (s pat : String) : Bool := occursIn pat.data s.data

/-! # Theorems -/

/-! ## Generic helper lemmas -/

theorem string_data_append (a b : String) : (a ++ b).data = a.data ++ b.data := by
  cases a; cases b; rfl

theorem string_eq_of_data {a b : String} (h : a.data = b.data) : a = b := by
  cases a; cases b; simp_all

theorem string_append_assoc (a b c : String) : a ++ b ++ c = a ++ (b ++ c) := by
  apply string_eq_of_data
  simp [string_data_append]

theorem charVal_digitChar {d : Nat} (h : d < 10) : charVal (digitChar d) = d := by
  interval_cases d <;> decide

theorem decDigitsVal_decDigits : ∀ fuel n, n < fuel →
    decDigitsVal (decDigits fuel n) = n := by
  intro fuel
  induction fuel with
  | zero => omega
  | succ f ih =>
    intro n hn
    by_cases h : n < 10
    · simp [decDigits, h, decDigitsVal, charVal_digitChar h]
    · have h1 : n % 10 < 10 := Nat.mod_lt _ (by omega)
      have h2 : n / 10 < f := by omega
      simp [decDigits, h, decDigitsVal, charVal_digitChar h1, ih _ h2]
      omega

theorem decRepr_inj {m n : Nat} (h : decRepr m = decRepr n) : m = n := by
  have hd : (decDigits (m + 1) m).reverse = (decDigits (n + 1) n).reverse := by
    have := congrArg String.data h
    simpa [decRepr] using this
  have hd2 : decDigits (m + 1) m = decDigits (n + 1) n :=
    List.reverse_injective hd
  have hm := decDigitsVal_decDigits (m + 1) m (by omega)
  have hn := decDigitsVal_decDigits (n + 1) n (by omega)
  rw [hd2] at hm
  omega

theorem cacheBust_inj (src : String) {t1 t2 : Nat}
    (h : cacheBust src t1 = cacheBust src t2) : t1 = t2 := by
  apply decRepr_inj
  apply string_eq_of_data
  have hdata := congrArg String.data h
  simp only [cacheBust, string_data_append] at hdata
  exact List.append_cancel_left hdata

theorem foldl_append_map {α β : Type} (f : α → β) :
    ∀ (l : List α) (init : List β),
      l.foldl (fun acc d => acc ++ [f d]) init = init ++ l.map f := by
  intro l
  induction l with
  | nil => simp
  | cons x xs ih => intro init; simp [ih, List.append_assoc]

theorem headMatch_append_self (pat b : List Char) :
    headMatch pat (pat ++ b) = true := by
  simp [headMatch, List.take_left]

theorem occursIn_append_self : ∀ (a : List Char) (pat b : List Char),
    occursIn pat (a ++ (pat ++ b)) = true := by
  intro a
  induction a with
  | nil =>
    intro pat b
    match pat with
    | [] => cases b <;> simp [occursIn, headMatch]
    | c :: pat' =>
      have h := headMatch_append_self (c :: pat') b
      simp only [List.nil_append, occursIn]
      rw [show (c :: pat') ++ b = c :: (pat' ++ b) from rfl] at h
      simp [h]
  | cons x a' ih =>
    intro pat b
    simp [occursIn, ih]

theorem occursIn_self_append (pat b : List Char) :
    occursIn pat (pat ++ b) = true := by
  simpa using occursIn_append_self [] pat b

theorem occursIn_append_left (pat l : List Char) (h : occursIn pat l = true) :
    ∀ a : List Char, occursIn pat (a ++ l) = true := by
  intro a
  induction a with
  | nil => simpa using h
  | cons x a' ih => simp [occursIn, ih]

theorem strContains_mid (a pat b : String) :
    strContains (a ++ pat ++ b) pat = true := by
  simp only [strContains, string_data_append, List.append_assoc]
  exact occursIn_append_self a.data pat.data b.data

/-! ## C1 support: stripped subtrees are script-free -/

theorem noScripts_stripScripts : ∀ ns : List Node,
    noScriptsList (stripScripts ns) = true := by
  intro ns
  induction ns using stripScripts.induct with
  | case1 => simp [stripScripts, noScriptsList]
  | case2 tag attrs ch rest htag ih =>
    simp [stripScripts, htag, ih]
  | case3 tag attrs ch rest htag ih1 ih2 =>
    simp [stripScripts, htag, noScriptsList, ih1, ih2]
    simpa using htag
  | case4 s rest ih =>
    simp [stripScripts, noScriptsList, ih]

/--
C1: `setHTMLWithScripts` extracts every script node with its
`src`/`type`/inline text, strips scripts from the parsed subtree, appends
the non-script subtree to the container first, and then appends fresh
script elements in the original order; a truthy external `src` gets the
cache-defeating `_t=<timestamp>` query parameter, so the same script URL
injected in two calls with distinct `Date.now()` values loads under two
distinct URLs.
-/
theorem injectHTML_script_handling
    (cs html : List Node) (now : Nat) :
    setHTMLWithScripts cs html now
        = cs ++ stripScripts html ++ (collectScripts html).map (mkScript now)
    ∧ noScriptsList (stripScripts html) = true
    ∧ (∀ d ∈ collectScripts html,
        nodeTag (mkScript now d) = "script"
        ∧ nodeAttr (mkScript now d) "type"
            = (if truthyStr d.type then d.type else none)
        ∧ nodeAttr (mkScript now d) "src"
            = (match d.src with
                | some s => if s.isEmpty then none else some (cacheBust s now)
                | none => none)
        ∧ nodeText (mkScript now d) = d.textContent)
    ∧ (∀ (src : String) (t1 t2 : Nat), t1 ≠ t2 →
        cacheBust src t1 ≠ cacheBust src t2) := by
  refine ⟨?_, noScripts_stripScripts html, ?_, ?_⟩
  · simp [setHTMLWithScripts, foldl_append_map, List.append_assoc]
  · intro d _hd
    obtain ⟨src, type, tc⟩ := d
    refine ⟨rfl, ?_, ?_, ?_⟩
    · match type, src with
      | none, none => simp [mkScript, nodeAttr, getAttrL, truthyStr]
      | none, some s =>
        by_cases hs : s.isEmpty <;> simp [mkScript, nodeAttr, getAttrL, truthyStr, hs]
      | some t, none =>
        by_cases ht : t.isEmpty <;> simp [mkScript, nodeAttr, getAttrL, truthyStr, ht]
      | some t, some s =>
        by_cases ht : t.isEmpty <;> by_cases hs : s.isEmpty <;>
          simp [mkScript, nodeAttr, getAttrL, truthyStr, ht, hs]
    · match type, src with
      | none, none => simp [mkScript, nodeAttr, getAttrL]
      | none, some s =>
        by_cases hs : s.isEmpty <;> simp [mkScript, nodeAttr, getAttrL, hs]
      | some t, none =>
        by_cases ht : t.isEmpty <;> simp [mkScript, nodeAttr, getAttrL, ht]
      | some t, some s =>
        by_cases ht : t.isEmpty <;> by_cases hs : s.isEmpty <;>
          simp [mkScript, nodeAttr, getAttrL, ht, hs]
    · by_cases htc : tc.isEmpty
      · have hemp : tc = "" := (String.isEmpty_iff tc).mp htc
        subst hemp
        have he : ("" : String).isEmpty = true := rfl
        simp only [mkScript, nodeText, he, if_true]
        simp [textContentList]
      · simp only [mkScript, nodeText, htc, Bool.false_eq_true, if_false]
        simp [textContentList]
  · intro src t1 t2 hne heq
    exact hne (cacheBust_inj src heq)

/-- C1 witness. -/
theorem injectHTML_script_handling_witness :
    setHTMLWithScripts []
        [Node.elem "div" [] [],
          Node.elem "script" [("src", "/m.js"), ("type", "module")] []] 7
      = [Node.elem "div" [] [],
          Node.elem "script" [("type", "module"), ("src", "/m.js?_t=7")] []]
    ∧ cacheBust "/m.js" 7 ≠ cacheBust "/m.js" 8 := by
  constructor
  · rw [(injectHTML_script_handling []
      [Node.elem "div" [] [],
        Node.elem "script" [("src", "/m.js"), ("type", "module")] []] 7).1]
    simp only [stripScripts, collectScripts, textContentList, List.map]
    simp [mkScript, getAttrL, cacheBust]
    constructor
    · decide
    · decide
  · exact ((injectHTML_script_handling [] [] 0).2.2.2) "/m.js" 7 8 (by decide)

/--
C10: a caller-supplied container is used exactly as passed: `injectHTML`
adds no edge for it (never appends it to the base element), leaves its
existing children in place, and appends the newly parsed markup after
them, so two calls targeting the same container accumulate both markups;
only a freshly created default container is attached (to the resolved
base element).
-/
theorem injectHTML_caller_container_spec
    (s : BrowserState) (html1 html2 : List Node) (now1 now2 : Nat)
    (baseOpt : Option Nat) (c : Nat) :
    (injectHTML s html1 now1 baseOpt (some c)).2 = c
    ∧ (injectHTML s html1 now1 baseOpt (some c)).1.edges = s.edges
    ∧ getContent (injectHTML s html1 now1 baseOpt (some c)).1 c
        = getContent s c ++ stripScripts html1
            ++ (collectScripts html1).map (mkScript now1)
    ∧ getContent
        (injectHTML (injectHTML s html1 now1 baseOpt (some c)).1
          html2 now2 baseOpt (some c)).1 c
        = getContent s c
            ++ (stripScripts html1 ++ (collectScripts html1).map (mkScript now1))
            ++ (stripScripts html2 ++ (collectScripts html2).map (mkScript now2))
    ∧ (injectHTML s html1 now1 baseOpt none).1.edges
        = (s.nextId, baseOpt.getD bodyId) :: s.edges := by
  refine ⟨rfl, ?_, ?_, ?_, ?_⟩
  · simp only [injectHTML, setupContainer, setContent, createRenderResult]
    split <;> rfl
  · simp only [injectHTML, setupContainer, createRenderResult]
    split <;>
      simp [getContent, setContent, lookupContent, setHTMLWithScripts,
        foldl_append_map, List.append_assoc]
  · simp only [injectHTML, setupContainer, createRenderResult]
    split <;> split <;>
      simp [getContent, setContent, lookupContent, setHTMLWithScripts,
        foldl_append_map, List.append_assoc]
  · simp only [injectHTML, setupContainer, setContent, createRenderResult]
    split <;> rfl

/-! ## Registry / attachment lemmas (C4, C8) -/

theorem lookupParent_filter_ne (edges : List (Nat × Nat)) (c e : Nat)
    (h : e ≠ c) :
    lookupParent (edges.filter (fun p => !(p.1 == c))) e
      = lookupParent edges e := by
  induction edges with
  | nil => rfl
  | cons p rest ih =>
    obtain ⟨a, b⟩ := p
    by_cases hac : a = c
    · subst hac
      have hne : (a == e) = false := by simp; omega
      simp [List.filter_cons, lookupParent, hne, ih]
    · by_cases hae : a = e
      · subst hae
        simp [List.filter_cons, lookupParent, hac]
      · simp [List.filter_cons, lookupParent, hac, hae, ih]

theorem lookupParent_filter_none (edges : List (Nat × Nat))
    (f : Nat × Nat → Bool) (c : Nat) (h : lookupParent edges c = none) :
    lookupParent (edges.filter f) c = none := by
  induction edges with
  | nil => rfl
  | cons p rest ih =>
    obtain ⟨a, b⟩ := p
    by_cases hac : a = c
    · subst hac; simp [lookupParent] at h
    · have hrest : lookupParent rest c = none := by
        simpa [lookupParent, hac] using h
      by_cases hf : f (a, b) <;> simp [List.filter_cons, hf, lookupParent, hac, ih hrest]

theorem lookupParent_all_lt (edges : List (Nat × Nat)) (n : Nat)
    (h : ∀ p ∈ edges, p.1 < n) : lookupParent edges n = none := by
  induction edges with
  | nil => rfl
  | cons p rest ih =>
    obtain ⟨a, b⟩ := p
    have ha : a < n := h (a, b) (by simp)
    have hne : (a == n) = false := by simp; omega
    simp [lookupParent, hne]
    exact ih (fun q hq => h q (by simp [hq]))

theorem attachedUnder_body (edges : List (Nat × Nat)) (fuel : Nat) :
    attachedUnder edges fuel bodyId = true := by
  cases fuel <;> simp [attachedUnder]

theorem attachedUnder_none {edges : List (Nat × Nat)} {e : Nat} (fuel : Nat)
    (he : e ≠ bodyId) (h : lookupParent edges e = none) :
    attachedUnder edges fuel e = false := by
  cases fuel <;> simp [attachedUnder, he, h]

theorem attachedB_of_parent_body (s : BrowserState) (e : Nat)
    (h : parentOf s e = some bodyId) : attachedB s e = true := by
  unfold attachedB
  by_cases he : e = bodyId
  · simp [attachedUnder, he]
  · simp only [attachedUnder, he, beq_iff_eq, if_false]
    rw [show lookupParent s.edges e = some bodyId from h]
    exact attachedUnder_body _ _

theorem regAttached_of_underBody (s : BrowserState)
    (h : registryUnderBodyInv s = true) : registryAttachedInv s = true := by
  simp only [registryUnderBodyInv, List.all_eq_true] at h
  simp only [registryAttachedInv, List.all_eq_true]
  intro c hc
  exact attachedB_of_parent_body s c (by simpa using h c hc)

theorem unmount_registry (s : BrowserState) (c : Nat) :
    (unmount s c).registry = s.registry.erase c := by
  simp only [unmount, setContent, removeEdge, parentOf]
  split <;> rfl

theorem unmount_content (s : BrowserState) (c : Nat) :
    (unmount s c).content = (c, []) :: s.content := by
  simp only [unmount, setContent, removeEdge, parentOf]
  split <;> rfl

theorem unmount_edges (s : BrowserState) (c : Nat) :
    (unmount s c).edges
      = if parentOf s c == some bodyId
        then s.edges.filter (fun p => !(p.1 == c))
        else s.edges := by
  simp only [unmount, setContent, removeEdge, parentOf]
  split <;> simp_all

theorem cleanup_registry (s : BrowserState) : (cleanup s).registry = [] := rfl

theorem cleanupStep_edges (st : BrowserState) (d : Nat) :
    (cleanupStep st d).edges
      = if parentOf st d == some bodyId
        then st.edges.filter (fun p => !(p.1 == d))
        else st.edges := by
  simp only [cleanupStep, setContent, removeEdge, parentOf]
  split <;> simp_all

theorem cleanup_foldl_detached (c : Nat) :
    ∀ (l : List Nat) (st : BrowserState),
      lookupParent st.edges c = none →
      lookupParent (l.foldl cleanupStep st).edges c = none := by
  intro l
  induction l with
  | nil => intro st h; exact h
  | cons d rest ih =>
    intro st h
    simp only [List.foldl_cons]
    apply ih
    rw [cleanupStep_edges]
    split
    · exact lookupParent_filter_none _ _ _ h
    · exact h

theorem inject_default_shape (s : BrowserState) (html : List Node) (now : Nat)
    (h : s.nextId ∉ s.registry) :
    (injectHTML s html now none none).1
      = ⟨s.nextId :: s.registry, (s.nextId, bodyId) :: s.edges,
          (s.nextId, setHTMLWithScripts [] html now)
            :: (s.nextId, []) :: s.content,
          s.nextId + 1⟩ := by
  simp only [injectHTML, setupContainer, Option.getD, setContent,
    createRenderResult, getContent, lookupContent]
  rw [if_neg h]
  simp [getContent, lookupContent]

/--
C4 counterexample: from a well-formed state satisfying the registry
invariant, `injectHTML` with a caller-supplied container that is not
attached under the document registers that container while it stays
detached, so the invariant "every container present in the registry is
attached under the document" fails for caller-supplied container options.
-/
theorem registry_invariant_cex :
    stateWF ⟨[], [], [(5, [])], 6⟩ = true
    ∧ registryAttachedInv ⟨[], [], [(5, [])], 6⟩ = true
    ∧ (injectHTML ⟨[], [], [(5, [])], 6⟩ [] 0 none (some 5)).1.registry = [5]
    ∧ attachedB (injectHTML ⟨[], [], [(5, [])], 6⟩ [] 0 none (some 5)).1 5
        = false
    ∧ registryAttachedInv
        (injectHTML ⟨[], [], [(5, [])], 6⟩ [] 0 none (some 5)).1 = false := by
  have hshape : (injectHTML ⟨[], [], [(5, [])], 6⟩ [] 0 none (some 5)).1
      = ⟨[5], [],
          (5, setHTMLWithScripts [] [] 0) :: [(5, [])], 6⟩ := by
    simp [injectHTML, setupContainer, setContent, createRenderResult,
      getContent, lookupContent]
  refine ⟨by decide, by decide, ?_, ?_, ?_⟩ <;> rw [hshape] <;> decide

/--
C4 (amended): under default usage — no caller-supplied container or
baseElement, so every registered container is a fresh `div` appended
directly under `document.body` — every registry-mutating operation
(`injectHTML` adding, `unmount` and `cleanup` removing) preserves the
invariant that registered containers are attached under the document, and
any container an operation detaches leaves the registry in that same
operation.  (The original claim, which includes caller-supplied container
options, is refuted by `registry_invariant_cex`.)
-/
theorem registry_invariant_amended
    (s : BrowserState) (html : List Node) (now : Nat) (c : Nat)
    (hwf : stateWF s = true) (hnodup : s.registry.Nodup)
    (hinv : registryUnderBodyInv s = true) :
    (registryUnderBodyInv (injectHTML s html now none none).1 = true
      ∧ registryAttachedInv (injectHTML s html now none none).1 = true
      ∧ (injectHTML s html now none none).1.registry.Nodup
      ∧ stateWF (injectHTML s html now none none).1 = true)
    ∧ (registryUnderBodyInv (unmount s c) = true
      ∧ registryAttachedInv (unmount s c) = true
      ∧ c ∉ (unmount s c).registry)
    ∧ ((cleanup s).registry = []
      ∧ registryAttachedInv (cleanup s) = true) := by
  simp only [stateWF, Bool.and_eq_true, List.all_eq_true, decide_eq_true_eq] at hwf
  obtain ⟨⟨⟨hbody, hreg⟩, hedges⟩, hcont⟩ := hwf
  simp only [registryUnderBodyInv, List.all_eq_true] at hinv
  have hfresh_reg : s.nextId ∉ s.registry := fun hmem =>
    Nat.lt_irrefl _ (hreg _ hmem)
  have hfresh_edge : ∀ p ∈ s.edges, p.1 < s.nextId := fun p hp =>
    (hedges p hp).1
  constructor
  · -- injectHTML with default options
    have hshape := inject_default_shape s html now hfresh_reg
    rw [hshape]
    have hparent : ∀ e, e ∈ s.nextId :: s.registry →
        lookupParent ((s.nextId, bodyId) :: s.edges) e = some bodyId := by
      intro e hmem
      rcases List.mem_cons.mp hmem with rfl | hold
      · simp [lookupParent]
      · have hlt : e < s.nextId := hreg e hold
        have hne : (s.nextId == e) = false := by simp; omega
        simp [lookupParent, hne]
        simpa [parentOf] using hinv e hold
    have hdinv : registryUnderBodyInv
        ⟨s.nextId :: s.registry, (s.nextId, bodyId) :: s.edges,
          (s.nextId, setHTMLWithScripts [] html now)
            :: (s.nextId, []) :: s.content, s.nextId + 1⟩ = true := by
      simp only [registryUnderBodyInv, List.all_eq_true]
      intro e he'
      simp only [parentOf]
      simp [hparent e he']
    refine ⟨hdinv, regAttached_of_underBody _ hdinv, ?_, ?_⟩
    · exact hnodup.cons hfresh_reg
    · simp only [stateWF, Bool.and_eq_true, List.all_eq_true,
        decide_eq_true_eq]
      refine ⟨⟨⟨by omega, ?_⟩, ?_⟩, ?_⟩
      · intro e he'
        rcases List.mem_cons.mp he' with rfl | hold
        · omega
        · have := hreg e hold; omega
      · intro p hp
        rcases List.mem_cons.mp hp with rfl | hold
        · exact ⟨(by omega : s.nextId < s.nextId + 1),
            (by omega : bodyId < s.nextId + 1)⟩
        · have := hedges p hold
          exact ⟨by omega, by omega⟩
      · intro q hq
        rcases List.mem_cons.mp hq with rfl | hq2
        · exact (by omega : s.nextId < s.nextId + 1)
        · rcases List.mem_cons.mp hq2 with rfl | hold
          · exact (by omega : s.nextId < s.nextId + 1)
          · have := hcont q hold; omega
  refine ⟨⟨?_, ?_, ?_⟩, rfl, by simp [cleanup_registry, registryAttachedInv]⟩
  · -- unmount preserves the invariant
    simp only [registryUnderBodyInv, List.all_eq_true, unmount_registry]
    intro e he'
    have hem := (List.Nodup.mem_erase_iff hnodup).mp he'
    unfold parentOf
    rw [unmount_edges]
    split
    · rw [lookupParent_filter_ne _ _ _ hem.1]
      exact hinv e hem.2
    · exact hinv e hem.2
  · apply regAttached_of_underBody
    simp only [registryUnderBodyInv, List.all_eq_true, unmount_registry]
    intro e he'
    have hem := (List.Nodup.mem_erase_iff hnodup).mp he'
    unfold parentOf
    rw [unmount_edges]
    split
    · rw [lookupParent_filter_ne _ _ _ hem.1]
      exact hinv e hem.2
    · exact hinv e hem.2
  · rw [unmount_registry]
    intro hmem
    exact absurd hmem (List.Nodup.not_mem_erase hnodup)

theorem lookupParent_filter_self (edges : List (Nat × Nat)) (c : Nat) :
    lookupParent (edges.filter (fun p => !(p.1 == c))) c = none := by
  induction edges with
  | nil => rfl
  | cons p rest ih =>
    obtain ⟨a, b⟩ := p
    by_cases hac : a = c
    · subst hac; simp [List.filter_cons, ih]
    · simp [List.filter_cons, lookupParent, hac, ih]

/-- C4 witness for the amended theorem, at a concrete well-formed state. -/
theorem registry_invariant_amended_witness :
    (stateWF ⟨[], [], [], 1⟩ = true ∧ ([] : List Nat).Nodup
      ∧ registryUnderBodyInv ⟨[], [], [], 1⟩ = true)
    ∧ registryAttachedInv (injectHTML ⟨[], [], [], 1⟩ [] 0 none none).1 = true := by
  refine ⟨⟨by decide, by decide, by decide⟩, ?_⟩
  exact (registry_invariant_amended ⟨[], [], [], 1⟩ [] 0 0 (by decide)
    (by decide) (by decide)).1.2.1

/--
C8: after a default `render()` (no container/baseElement options, so the
container is a fresh div under `document.body`) followed by `unmount()`,
the container's contents are cleared, it is removed from the mount
registry, it is not attached to the document, and it does not appear in
any subsequent `cleanup()` traversal (the registry it iterates no longer
holds the container, and cleanup leaves it detached) — no double-free;
moreover `unmount` detaches a container from the document only when its
parent is exactly `document.body`.
-/
theorem unmount_detach_spec
    (s : BrowserState) (html : List Node) (now : Nat)
    (st : BrowserState) (d : Nat)
    (hwf : stateWF s = true)
    (hd : parentOf st d ≠ some bodyId) :
    (injectHTML s html now none none).2 = s.nextId
    ∧ getContent (unmount (injectHTML s html now none none).1 s.nextId)
        s.nextId = []
    ∧ (unmount (injectHTML s html now none none).1 s.nextId).registry
        = s.registry
    ∧ s.nextId ∉ (unmount (injectHTML s html now none none).1 s.nextId).registry
    ∧ attachedB (unmount (injectHTML s html now none none).1 s.nextId)
        s.nextId = false
    ∧ attachedB (cleanup (unmount (injectHTML s html now none none).1 s.nextId))
        s.nextId = false
    ∧ (unmount st d).edges = st.edges := by
  simp only [stateWF, Bool.and_eq_true, List.all_eq_true,
    decide_eq_true_eq] at hwf
  obtain ⟨⟨⟨hbody, hreg⟩, hedges⟩, hcont⟩ := hwf
  have hfresh_reg : s.nextId ∉ s.registry := fun hmem =>
    Nat.lt_irrefl _ (hreg _ hmem)
  have hshape := inject_default_shape s html now hfresh_reg
  have hcne : s.nextId ≠ bodyId := by omega
  have hparent_c :
      parentOf (injectHTML s html now none none).1 s.nextId = some bodyId := by
    rw [hshape]
    simp [parentOf, lookupParent]
  have hedges_u :
      (unmount (injectHTML s html now none none).1 s.nextId).edges
        = (injectHTML s html now none none).1.edges.filter
            (fun p => !(p.1 == s.nextId)) := by
    rw [unmount_edges, if_pos]
    simp [hparent_c]
  have hlook :
      lookupParent (unmount (injectHTML s html now none none).1 s.nextId).edges
        s.nextId = none := by
    rw [hedges_u]
    exact lookupParent_filter_self _ _
  refine ⟨?_, ?_, ?_, ?_, ?_, ?_, ?_⟩
  · rfl
  · unfold getContent
    rw [unmount_content]
    simp [lookupContent]
  · rw [unmount_registry, hshape]
    exact List.erase_cons_head s.nextId s.registry
  · rw [unmount_registry, hshape]
    rw [show (⟨s.nextId :: s.registry, (s.nextId, bodyId) :: s.edges,
        (s.nextId, setHTMLWithScripts [] html now) :: (s.nextId, []) :: s.content,
        s.nextId + 1⟩ : BrowserState).registry = s.nextId :: s.registry from rfl]
    rw [List.erase_cons_head s.nextId s.registry]
    exact hfresh_reg
  · unfold attachedB
    exact attachedUnder_none _ hcne hlook
  · unfold attachedB
    apply attachedUnder_none _ hcne
    rw [show (cleanup (unmount (injectHTML s html now none none).1 s.nextId)).edges
        = ((unmount (injectHTML s html now none none).1 s.nextId).registry.foldl
            cleanupStep
            (unmount (injectHTML s html now none none).1 s.nextId)).edges
      from rfl]
    exact cleanup_foldl_detached _ _ _ hlook
  · rw [unmount_edges, if_neg]
    simp [hd]

/-- C8 witness. -/
theorem unmount_detach_spec_witness :
    (stateWF ⟨[], [], [], 1⟩ = true
      ∧ parentOf ⟨[], [(7, 3)], [], 8⟩ 7 ≠ some bodyId)
    ∧ attachedB (unmount (injectHTML ⟨[], [], [], 1⟩ [] 0 none none).1 1) 1
        = false
    ∧ (unmount (⟨[], [(7, 3)], [], 8⟩ : BrowserState) 7).edges = [(7, 3)] := by
  refine ⟨⟨by decide, by decide⟩, ?_, ?_⟩
  · exact (unmount_detach_spec ⟨[], [], [], 1⟩ [] 0 ⟨[], [(7, 3)], [], 8⟩ 7
      (by decide) (by decide)).2.2.2.2.1
  · exact (unmount_detach_spec ⟨[], [], [], 1⟩ [] 0 ⟨[], [(7, 3)], [], 8⟩ 7
      (by decide) (by decide)).2.2.2.2.2.2

/-! ## Hydration-wait lemmas (C5) -/

theorem hydration_run_reject (counts : Nat → Nat) (timeout : Nat) :
    ∀ (fuel j : Nat),
      (∀ k, k ≤ timeout / 50 + 1 → counts k ≠ 0) →
      j ≤ timeout / 50 + 1 →
      fuel + j ≥ timeout / 50 + 2 →
      waitForHydrationRun counts timeout fuel j
        = some (.timedOut (counts (timeout / 50 + 1))
            (hydrationMsg (counts (timeout / 50 + 1)) timeout)) := by
  intro fuel
  induction fuel with
  | zero => intro j h hj hf; omega
  | succ f ih =>
    intro j h hj hf
    have hcj : counts j ≠ 0 := h j hj
    by_cases hjk : j = timeout / 50 + 1
    · subst hjk
      have hgt : 50 * (timeout / 50 + 1) > timeout := by omega
      simp [waitForHydrationRun, hcj, pollIntervalMs, hgt]
    · have hle : ¬ (50 * j > timeout) := by omega
      rw [show waitForHydrationRun counts timeout (f + 1) j
          = if counts j = 0 then some (.resolved j)
            else if pollIntervalMs * j > timeout then
              some (.timedOut (counts j) (hydrationMsg (counts j) timeout))
            else waitForHydrationRun counts timeout f (j + 1)
        from rfl]
      simp only [pollIntervalMs]
      rw [if_neg hcj, if_neg hle]
      exact ih (j + 1) h (by omega) (by omega)

theorem hydration_run_timedOut_inv (counts : Nat → Nat) (timeout : Nat) :
    ∀ (fuel j r : Nat) (m : String),
      waitForHydrationRun counts timeout fuel j = some (.timedOut r m) →
      r ≠ 0 ∧ m = hydrationMsg r timeout
        ∧ ∃ k, j ≤ k ∧ r = counts k ∧ 50 * k > timeout
            ∧ ∀ i, j ≤ i → i < k → (counts i ≠ 0 ∧ 50 * i ≤ timeout) := by
  intro fuel
  induction fuel with
  | zero => intro j r m h; simp [waitForHydrationRun] at h
  | succ f ih =>
    intro j r m h
    by_cases h0 : counts j = 0
    · simp [waitForHydrationRun, h0] at h
    · by_cases hgt : 50 * j > timeout
      · simp [waitForHydrationRun, h0, pollIntervalMs, hgt] at h
        obtain ⟨hr, hm⟩ := h
        subst hr
        refine ⟨h0, hm.symm, j, Nat.le_refl j, rfl, hgt, ?_⟩
        intro i hji hik
        omega
      · simp [waitForHydrationRun, h0, pollIntervalMs, hgt] at h
        obtain ⟨hne, hm, k, hk1, hk2, hk3, hk4⟩ := ih (j + 1) r m h
        refine ⟨hne, hm, k, by omega, hk2, hk3, ?_⟩
        intro i hji hik
        rcases Nat.eq_or_lt_of_le hji with rfl | hlt
        · exact ⟨h0, by omega⟩
        · exact hk4 i (by omega) hik

theorem hydration_run_resolved_inv (counts : Nat → Nat) (timeout : Nat) :
    ∀ (fuel j k : Nat),
      waitForHydrationRun counts timeout fuel j = some (.resolved k) →
      counts k = 0 ∧ j ≤ k
        ∧ ∀ i, j ≤ i → i < k → (counts i ≠ 0 ∧ 50 * i ≤ timeout) := by
  intro fuel
  induction fuel with
  | zero => intro j k h; simp [waitForHydrationRun] at h
  | succ f ih =>
    intro j k h
    by_cases h0 : counts j = 0
    · simp [waitForHydrationRun, h0] at h
      subst h
      exact ⟨h0, Nat.le_refl j, fun i hji hik => by omega⟩
    · by_cases hgt : 50 * j > timeout
      · simp [waitForHydrationRun, h0, pollIntervalMs, hgt] at h
      · simp [waitForHydrationRun, h0, pollIntervalMs, hgt] at h
        obtain ⟨hk0, hk1, hk2⟩ := ih (j + 1) k h
        refine ⟨hk0, by omega, ?_⟩
        intro i hji hik
        rcases Nat.eq_or_lt_of_le hji with rfl | hlt
        · exact ⟨h0, by omega⟩
        · exact hk2 i (by omega) hik

/--
C5: `waitForHydration` polls the count of `astro-island[ssr]` elements in
the scope at a 50 ms interval, with default timeout 5000 ms; it resolves
at the first poll at which the count is zero (immediately, with no
polling delay, when the count is zero at the first check), and it throws
the hydration-timeout error carrying the remaining marker count if and
only if the timeout elapses (elapsed time strictly exceeds `timeout`)
while the count is still nonzero.
-/
theorem waitForHydration_spec (snapshots : Nat → List Node)
    (timeout fuel : Nat) :
    (pollIntervalMs = 50 ∧ waitForHydrationDefaultTimeout = 5000)
    ∧ (islandCounts snapshots 0 = 0 →
        waitForHydrationRun (islandCounts snapshots) timeout (fuel + 1) 0
          = some (.resolved 0))
    ∧ ((∀ k, k ≤ timeout / 50 + 1 → islandCounts snapshots k ≠ 0) →
        fuel ≥ timeout / 50 + 2 →
        waitForHydrationRun (islandCounts snapshots) timeout fuel 0
          = some (.timedOut (islandCounts snapshots (timeout / 50 + 1))
              (hydrationMsg (islandCounts snapshots (timeout / 50 + 1))
                timeout)))
    ∧ (∀ (r : Nat) (m : String),
        waitForHydrationRun (islandCounts snapshots) timeout fuel 0
            = some (.timedOut r m) →
        r ≠ 0 ∧ m = hydrationMsg r timeout
          ∧ ∃ k, r = islandCounts snapshots k ∧ 50 * k > timeout
              ∧ ∀ i < k, islandCounts snapshots i ≠ 0 ∧ 50 * i ≤ timeout)
    ∧ (∀ k, waitForHydrationRun (islandCounts snapshots) timeout fuel 0
            = some (.resolved k) →
        islandCounts snapshots k = 0
          ∧ ∀ i < k, islandCounts snapshots i ≠ 0 ∧ 50 * i ≤ timeout) := by
  refine ⟨⟨rfl, rfl⟩, ?_, ?_, ?_, ?_⟩
  · intro h0
    simp [waitForHydrationRun, h0]
  · intro hall hfuel
    exact hydration_run_reject _ _ fuel 0 hall (by omega) (by omega)
  · intro r m h
    obtain ⟨hne, hm, k, _, hk2, hk3, hk4⟩ :=
      hydration_run_timedOut_inv _ _ fuel 0 r m h
    exact ⟨hne, hm, k, hk2, hk3, fun i hik => hk4 i (Nat.zero_le i) hik⟩
  · intro k h
    obtain ⟨hk0, _, hk2⟩ := hydration_run_resolved_inv _ _ fuel 0 k h
    exact ⟨hk0, fun i hik => hk2 i (Nat.zero_le i) hik⟩

/-- C5 witness. -/
theorem waitForHydration_spec_witness :
    (islandCounts (fun _ => []) 0 = 0
      ∧ waitForHydrationRun (islandCounts (fun _ => [])) 5000 1 0
          = some (.resolved 0))
    ∧ ((∀ k, k ≤ 100 / 50 + 1 →
          islandCounts (fun _ => [Node.elem "astro-island" [("ssr", "")] []]) k
            ≠ 0)
      ∧ waitForHydrationRun
          (islandCounts (fun _ => [Node.elem "astro-island" [("ssr", "")] []]))
          100 5 0
        = some (.timedOut 1 (hydrationMsg 1 100))) := by
  have h0 : islandCounts (fun _ => ([] : List Node)) 0 = 0 := by
    simp [islandCounts, countIslands]
  have hc : ∀ k, islandCounts
      (fun _ => [Node.elem "astro-island" [("ssr", "")] []]) k = 1 := by
    intro k
    simp [islandCounts, countIslands, hasAttr, getAttrL]
  have hall : ∀ k, k ≤ 100 / 50 + 1 →
      islandCounts (fun _ => [Node.elem "astro-island" [("ssr", "")] []]) k
        ≠ 0 := by
    intro k _
    rw [hc k]
    omega
  refine ⟨⟨h0, ?_⟩, hall, ?_⟩
  · exact (waitForHydration_spec (fun _ => []) 5000 0).2.1 h0
  · have h := (waitForHydration_spec
      (fun _ => [Node.elem "astro-island" [("ssr", "")] []]) 100 5).2.2.1
      hall (by omega)
    rw [hc] at h
    exact h

/-! ## Plugin transform theorems (C9) -/

/--
C9: the interceptor plugin pair — a `.astro` module loaded for SSR is
passed through unchanged except for the prepended `// astro-head-inject`
marker comment (by the `enforce: "pre"` plugin; the post plugin passes it
through); a `.astro` module loaded for the browser is replaced by a
default-export ComponentReference literal embedding the module path
(JSON-stringified) and the export name `"default"` (by the
`enforce: "post"` plugin; the pre plugin passes it through); every
non-`.astro` module is untouched (both transforms return `null`).
-/
theorem astroRenderer_transform_spec (code id : String) (ssr : Bool) :
    (preEnforce = "pre" ∧ postEnforce = "post")
    ∧ (strEndsWith id ".astro" = true → ssr = true →
        astroRendererPreTransform code id ssr
            = some (headInjectMarker ++ code)
          ∧ astroRendererPostTransform code id ssr = none)
    ∧ (strEndsWith id ".astro" = true → ssr = false →
        astroRendererPostTransform code id ssr = some (metadataModule id)
          ∧ astroRendererPreTransform code id ssr = none
          ∧ strContains (metadataModule id) (jsonStringify id) = true
          ∧ strContains (metadataModule id) "__name: \"default\"" = true
          ∧ strContains (metadataModule id) "export default" = true)
    ∧ (strEndsWith id ".astro" = false →
        astroRendererPreTransform code id ssr = none
          ∧ astroRendererPostTransform code id ssr = none) := by
  refine ⟨⟨rfl, rfl⟩, ?_, ?_, ?_⟩
  · intro hid hssr
    subst hssr
    constructor
    · simp [astroRendererPreTransform, hid]
    · simp [astroRendererPostTransform, hid]
  · intro hid hssr
    subst hssr
    refine ⟨by simp [astroRendererPostTransform, hid], by
      simp [astroRendererPreTransform, hid], ?_, ?_, ?_⟩
    · simp only [strContains, metadataModule, string_data_append,
        List.append_assoc]
      exact occursIn_append_left _ _
        (occursIn_self_append _ _) _
    · simp only [strContains, metadataModule, string_data_append,
        List.append_assoc]
      exact occursIn_append_left _ _
        (occursIn_append_left _ _ (by decide) _) _
    · simp only [strContains, metadataModule, string_data_append,
        List.append_assoc]
      rfl
  · intro hid
    constructor
    · simp [astroRendererPreTransform, hid]
    · simp [astroRendererPostTransform, hid]

/-- C9 witness. -/
theorem astroRenderer_transform_spec_witness :
    (strEndsWith "/c/Card.astro" ".astro" = true
      ∧ strEndsWith "/c/util.ts" ".astro" = false)
    ∧ astroRendererPreTransform "const x = 1" "/c/Card.astro" true
        = some ("// astro-head-inject\nconst x = 1")
    ∧ astroRendererPostTransform "const x = 1" "/c/Card.astro" false
        = some (metadataModule "/c/Card.astro")
    ∧ strContains (metadataModule "/c/Card.astro") "\"/c/Card.astro\"" = true
    ∧ astroRendererPreTransform "const x = 1" "/c/util.ts" true = none
    ∧ astroRendererPostTransform "const x = 1" "/c/util.ts" false = none := by
  have hastro : strEndsWith "/c/Card.astro" ".astro" = true := by decide
  have hts : strEndsWith "/c/util.ts" ".astro" = false := by decide
  refine ⟨⟨hastro, hts⟩, ?_, ?_, ?_, ?_, ?_⟩
  · exact ((astroRenderer_transform_spec "const x = 1" "/c/Card.astro"
      true).2.1 hastro rfl).1
  · exact ((astroRenderer_transform_spec "const x = 1" "/c/Card.astro"
      false).2.2.1 hastro rfl).1
  · have h := ((astroRenderer_transform_spec "const x = 1" "/c/Card.astro"
      false).2.2.1 hastro rfl).2.2.1
    rw [show jsonStringify "/c/Card.astro" = "\"/c/Card.astro\"" from by
      decide] at h
    exact h
  · exact ((astroRenderer_transform_spec "const x = 1" "/c/util.ts"
      true).2.2.2 hts).1
  · exact ((astroRenderer_transform_spec "const x = 1" "/c/util.ts"
      false).2.2.2 hts).2

/-! ## Component lookup theorems (C2) -/

theorem headMatch_mono (pat l suffix : List Char)
    (h : headMatch pat l = true) : headMatch pat (l ++ suffix) = true := by
  simp only [headMatch, beq_iff_eq] at h ⊢
  have hlen : pat.length ≤ l.length := by
    have := congrArg List.length h
    simp at this
    omega
  rw [List.take_append_of_le_length hlen]
  exact h

theorem occursIn_mono_right (pat l suffix : List Char)
    (h : occursIn pat l = true) : occursIn pat (l ++ suffix) = true := by
  induction l with
  | nil =>
    simp only [occursIn] at h
    have : pat = [] := by simpa using h
    subst this
    cases suffix <;> simp [occursIn, headMatch]
  | cons x rest ih =>
    simp only [occursIn, Bool.or_eq_true] at h
    rcases h with h | h
    · have := headMatch_mono pat (x :: rest) suffix h
      simp only [List.cons_append, occursIn, Bool.or_eq_true]
      left
      simpa using this
    · simp only [List.cons_append, occursIn, Bool.or_eq_true]
      right
      exact ih h

theorem occursIn_self (pat : List Char) : occursIn pat pat = true := by
  simpa using occursIn_self_append pat []

theorem intercalate_go_contains (sep k : String) :
    ∀ (rest : List String) (acc : String),
      occursIn k.data acc.data = true →
      occursIn k.data (String.intercalate.go acc sep rest).data = true := by
  intro rest
  induction rest with
  | nil => intro acc h; simpa [String.intercalate.go] using h
  | cons b bs ih =>
    intro acc h
    rw [show String.intercalate.go acc sep (b :: bs)
        = String.intercalate.go (acc ++ sep ++ b) sep bs from rfl]
    apply ih
    simp only [string_data_append]
    exact occursIn_mono_right _ _ _ (occursIn_mono_right _ _ _ h)

theorem intercalate_go_contains_mem (sep k : String) :
    ∀ (rest : List String) (acc : String), k ∈ rest →
      occursIn k.data (String.intercalate.go acc sep rest).data = true := by
  intro rest
  induction rest with
  | nil => intro acc h; cases h
  | cons b bs ih =>
    intro acc hk
    rw [show String.intercalate.go acc sep (b :: bs)
        = String.intercalate.go (acc ++ sep ++ b) sep bs from rfl]
    rcases List.mem_cons.mp hk with rfl | hmem
    · apply intercalate_go_contains
      simp only [string_data_append]
      exact occursIn_append_left _ _ (occursIn_self k.data) _
    · exact ih (acc ++ sep ++ b) hmem

theorem intercalate_contains_mem (sep : String) (keys : List String)
    (k : String) (hk : k ∈ keys) :
    occursIn k.data (String.intercalate sep keys).data = true := by
  match keys, hk with
  | a :: as, hk =>
    rw [show String.intercalate sep (a :: as)
        = String.intercalate.go a sep as from rfl]
    rcases List.mem_cons.mp hk with rfl | hmem
    · exact intercalate_go_contains sep k as k (occursIn_self k.data)
    · exact intercalate_go_contains_mem sep k as a hmem

theorem locateComponent_none_iff (m : Module) (name : String) :
    locateComponent m name = none
      ↔ truthyProp m "default" = false ∧ truthyProp m name = false := by
  unfold locateComponent truthyProp
  cases hd : getProp m "default" with
  | none =>
    cases hn : getProp m name with
    | none => simp
    | some v => by_cases htv : truthy v <;> simp [htv]
  | some d =>
    by_cases htd : truthy d
    · simp [htd]
    · cases hn : getProp m name with
      | none => simp [htd]
      | some v => by_cases htv : truthy v <;> simp [htd, htv]

/--
C2 counterexample: when a module has both a truthy `default` export and a
truthy export under the requested name, the `renderAstro` command resolves
the component to the DEFAULT export (`componentModule.default ||
componentModule[componentName]`), not to the export named by the
`componentName` argument as the claim states.
-/
theorem renderAstro_lookup_cex :
    locateComponent
        [("default", Value.vstr "DefaultComp"), ("x", Value.vstr "NamedComp")]
        "x"
      = some (Value.vstr "DefaultComp")
    ∧ getProp
        [("default", Value.vstr "DefaultComp"), ("x", Value.vstr "NamedComp")]
        "x"
      = some (Value.vstr "NamedComp")
    ∧ Value.vstr "DefaultComp" ≠ Value.vstr "NamedComp" := by
  refine ⟨rfl, rfl, ?_⟩
  intro h
  injection h with h2
  exact absurd h2 (by decide)

/--
C2 (amended): the `renderAstro` command locates the component as the
module's default export when that is truthy, falling back to the export
named by the `exportName` argument (the reverse of the claimed order);
and it throws the `Component not found` error — whose message names the
resolved path and every available export name — if and only if neither
the default export nor the named export is present and truthy.
-/
theorem renderAstro_lookup_amended (path : String) (m : Module)
    (name : String) :
    (∀ d, getProp m "default" = some d → truthy d = true →
        renderAstroLookup path m name = Except.ok d)
    ∧ (truthyProp m "default" = false →
        ∀ v, getProp m name = some v → truthy v = true →
          renderAstroLookup path m name = Except.ok v)
    ∧ (truthyProp m "default" = false → truthyProp m name = false →
        renderAstroLookup path m name
            = Except.error (componentNotFoundMsg path m)
          ∧ strContains (componentNotFoundMsg path m) path = true
          ∧ strContains (componentNotFoundMsg path m) "Component not found"
              = true
          ∧ ∀ k ∈ m.map (fun p => p.1),
              strContains (componentNotFoundMsg path m) k = true)
    ∧ (∀ e, renderAstroLookup path m name = Except.error e →
        truthyProp m "default" = false ∧ truthyProp m name = false) := by
  refine ⟨?_, ?_, ?_, ?_⟩
  · intro d hd htd
    unfold renderAstroLookup locateComponent
    rw [hd]
    simp [htd]
  · intro hdf v hv htv
    unfold renderAstroLookup locateComponent
    unfold truthyProp at hdf
    cases hd : getProp m "default" with
    | none => rw [hv]; simp [htv]
    | some d =>
      rw [hd] at hdf
      have hdf' : truthy d = false := by simpa using hdf
      rw [hv]
      simp [hdf', htv]
  · intro hdf hnf
    have hloc : locateComponent m name = none :=
      (locateComponent_none_iff m name).mpr ⟨hdf, hnf⟩
    refine ⟨?_, ?_, ?_, ?_⟩
    · unfold renderAstroLookup
      rw [hloc]
    · simp only [strContains, componentNotFoundMsg, string_data_append,
        List.append_assoc]
      exact occursIn_append_left _ _ (occursIn_self_append _ _) _
    · simp only [strContains, componentNotFoundMsg, string_data_append,
        List.append_assoc]
      rfl
    · intro k hk
      simp only [strContains, componentNotFoundMsg, string_data_append,
        List.append_assoc]
      exact occursIn_append_left _ _
        (occursIn_append_left _ _
          (occursIn_append_left _ _
            (intercalate_contains_mem ", " (m.map (fun p => p.1)) k hk) _) _) _
  · intro e he
    cases hloc : locateComponent m name with
    | some c =>
      unfold renderAstroLookup at he
      rw [hloc] at he
      cases he
    | none => exact (locateComponent_none_iff m name).mp hloc

/-- C2 witness for the amended theorem. -/
theorem renderAstro_lookup_amended_witness :
    (getProp [("default", Value.vstr "D")] "default" = some (Value.vstr "D")
      ∧ truthy (Value.vstr "D") = true
      ∧ renderAstroLookup "/a/C.astro" [("default", Value.vstr "D")] "x"
          = Except.ok (Value.vstr "D"))
    ∧ (truthyProp ([] : Module) "default" = false
      ∧ truthyProp ([] : Module) "x" = false
      ∧ renderAstroLookup "/a/C.astro" ([] : Module) "x"
          = Except.error (componentNotFoundMsg "/a/C.astro" [])) := by
  refine ⟨⟨rfl, rfl, ?_⟩, rfl, rfl, ?_⟩
  · exact (renderAstro_lookup_amended "/a/C.astro" [("default", Value.vstr "D")]
      "x").1 (Value.vstr "D") rfl rfl
  · exact ((renderAstro_lookup_amended "/a/C.astro" ([] : Module) "x").2.2.1
      rfl rfl).1

/-! ## `render` validation theorems (C3) -/

/--
C3 counterexample: the validation error `render` throws for a value not
carrying the `__astroComponent` flag is one fixed message — identical for
`{some: "object"}` and for `42` and containing no description of either
value — so while it does contain "Not an Astro component", it does not
name the received value's shape as the claim states.
-/
theorem render_validation_cex :
    render (Value.vobj [("some", Value.vstr "object")]) none []
        = Except.error (RenderError.notAComponent notAnAstroComponentMsg)
    ∧ render (Value.vnum 42) none []
        = Except.error (RenderError.notAComponent notAnAstroComponentMsg)
    ∧ strContains notAnAstroComponentMsg "some" = false
    ∧ strContains notAnAstroComponentMsg "object" = false
    ∧ strContains notAnAstroComponentMsg "42" = false
    ∧ strContains notAnAstroComponentMsg "Not an Astro component" = true := by
  exact ⟨rfl, rfl, by decide, by decide, by decide, by decide⟩

/--
C3 (amended): for every value that is not an object carrying a truthy
`__astroComponent` discriminator, `render` rejects before dispatching the
cross-runtime command, with the fixed error message containing
"Not an Astro component" (the message is a constant and does not describe
the received value); for every value carrying the flag, this validation
passes (`render` never fails with the not-a-component error).
-/
theorem render_validation_amended (v : Value)
    (props : Option (List (String × Value)))
    (slots : List (String × String)) :
    (astroComponentFlag v = false →
      render v props slots
          = Except.error (RenderError.notAComponent notAnAstroComponentMsg)
        ∧ strContains notAnAstroComponentMsg "Not an Astro component" = true)
    ∧ (astroComponentFlag v = true →
      ∀ msg, render v props slots
        ≠ Except.error (RenderError.notAComponent msg)) := by
  constructor
  · intro hflag
    refine ⟨?_, by decide⟩
    cases v with
    | vobj fields =>
      have hf : truthyProp fields "__astroComponent" = false := by
        simpa [astroComponentFlag] using hflag
      simp [render, hf]
    | vnull => rfl
    | vbool b => rfl
    | vnum n => rfl
    | vstr s => rfl
    | vdate ms => rfl
    | vregexp source flags => rfl
    | varr xs => rfl
    | vmap ps => rfl
    | vset xs => rfl
    | vfunc id => rfl
  · intro hflag msg
    cases v with
    | vobj fields =>
      have hf : truthyProp fields "__astroComponent" = true := by
        simpa [astroComponentFlag] using hflag
      cases props with
      | none => simp [render, hf]
      | some ps =>
        cases he : encode (Value.vobj ps) with
        | ok s => simp [render, hf, he]
        | error e => simp [render, hf, he]
    | vnull => simp [astroComponentFlag] at hflag
    | vbool b => simp [astroComponentFlag] at hflag
    | vnum n => simp [astroComponentFlag] at hflag
    | vstr s => simp [astroComponentFlag] at hflag
    | vdate ms => simp [astroComponentFlag] at hflag
    | vregexp source flags => simp [astroComponentFlag] at hflag
    | varr xs => simp [astroComponentFlag] at hflag
    | vmap ps => simp [astroComponentFlag] at hflag
    | vset xs => simp [astroComponentFlag] at hflag
    | vfunc id => simp [astroComponentFlag] at hflag

/-- C3 witness. -/
theorem render_validation_amended_witness :
    (astroComponentFlag (Value.vstr "nope") = false
      ∧ render (Value.vstr "nope") none []
          = Except.error (RenderError.notAComponent notAnAstroComponentMsg))
    ∧ (astroComponentFlag
          (Value.vobj [("__astroComponent", Value.vbool true)]) = true
      ∧ render (Value.vobj [("__astroComponent", Value.vbool true)]) none []
          ≠ Except.error
              (RenderError.notAComponent notAnAstroComponentMsg)) := by
  refine ⟨⟨rfl, ?_⟩, rfl, ?_⟩
  · exact ((render_validation_amended (Value.vstr "nope") none []).1 rfl).1
  · exact (render_validation_amended
      (Value.vobj [("__astroComponent", Value.vbool true)]) none []).2 rfl
      notAnAstroComponentMsg

/-! ## Serialization codec lemmas (C6, C7) -/

theorem string_mk_data (s : String) : String.mk s.data = s := by
  cases s; rfl

theorem decNat_encNat (n : Nat) (rest : List Char) :
    decNat (encNat n ++ rest) = some (n, rest) := by
  induction n with
  | zero => simp [encNat, decNat]
  | succ k ih =>
    have h : encNat (k + 1) ++ rest = '1' :: (encNat k ++ rest) := by
      simp [encNat, List.replicate_succ]
    rw [h]
    simp [decNat, ih]

theorem decInt_encInt (i : Int) (rest : List Char) :
    decInt (encInt i ++ rest) = some (i, rest) := by
  cases i with
  | ofNat n => simp [encInt, decInt, decNat_encNat]
  | negSucc n => simp [encInt, decInt, decNat_encNat]

theorem decTake_exact (l rest : List Char) :
    decTake l.length (l ++ rest) = some (l, rest) := by
  simp [decTake, List.take_left, List.drop_left]

theorem decStr_encStr (s : String) (rest : List Char) :
    decStr (encStr s ++ rest) = some (s, rest) := by
  have h : encStr s ++ rest
      = encNat s.data.length ++ (s.data ++ rest) := by
    simp [encStr]
  rw [h]
  unfold decStr
  rw [decNat_encNat]
  rw [show s.data.length = s.data.length from rfl]
  simp only []
  rw [decTake_exact]
  simp [string_mk_data]

theorem encNat_length (n : Nat) : (encNat n).length = n + 1 := by
  simp [encNat]

theorem vsize_pos (v : Value) : 0 < vsize v := by
  cases v <;> simp [vsize]


theorem decodeM_listN_zero (fuel : Nat) (cs : List Char) :
    decodeM fuel (.listN 0) cs = some (.many [], cs) := by
  cases fuel <;> rfl

theorem decodeM_fieldsN_zero (fuel : Nat) (cs : List Char) :
    decodeM fuel (.fieldsN 0) cs = some (.fields [], cs) := by
  cases fuel <;> rfl

theorem decodeM_pairsN_zero (fuel : Nat) (cs : List Char) :
    decodeM fuel (.pairsN 0) cs = some (.pairs [], cs) := by
  cases fuel <;> rfl

theorem decodeM_one_n (f : Nat) (cs : List Char) :
    decodeM (f + 1) .one ('n' :: cs) = some (.one .vnull, cs) := rfl

theorem decodeM_one_t (f : Nat) (cs : List Char) :
    decodeM (f + 1) .one ('t' :: cs) = some (.one (.vbool true), cs) := rfl

theorem decodeM_one_f (f : Nat) (cs : List Char) :
    decodeM (f + 1) .one ('f' :: cs) = some (.one (.vbool false), cs) := rfl

theorem decodeM_one_i (f : Nat) (cs : List Char) :
    decodeM (f + 1) .one ('i' :: cs)
      = (decInt cs).map (fun p => (.one (.vnum p.1), p.2)) := rfl

theorem decodeM_one_s (f : Nat) (cs : List Char) :
    decodeM (f + 1) .one ('s' :: cs)
      = (decStr cs).map (fun p => (.one (.vstr p.1), p.2)) := rfl

theorem decodeM_one_d (f : Nat) (cs : List Char) :
    decodeM (f + 1) .one ('d' :: cs)
      = (decInt cs).map (fun p => (.one (.vdate p.1), p.2)) := rfl

theorem decodeM_one_r (f : Nat) (cs : List Char) :
    decodeM (f + 1) .one ('r' :: cs)
      = (match decStr cs with
        | some (src, cs1) =>
          (decStr cs1).map (fun p => (.one (.vregexp src p.1), p.2))
        | none => none) := rfl

theorem decodeM_one_a (f : Nat) (cs : List Char) :
    decodeM (f + 1) .one ('a' :: cs)
      = (match decNat cs with
        | some (n, cs1) =>
          (match decodeM f (.listN n) cs1 with
            | some (.many xs, cs2) => some (.one (.varr xs), cs2)
            | _ => none)
        | none => none) := rfl

theorem decodeM_one_o (f : Nat) (cs : List Char) :
    decodeM (f + 1) .one ('o' :: cs)
      = (match decNat cs with
        | some (n, cs1) =>
          (match decodeM f (.fieldsN n) cs1 with
            | some (.fields fs, cs2) => some (.one (.vobj fs), cs2)
            | _ => none)
        | none => none) := rfl

theorem decodeM_one_m (f : Nat) (cs : List Char) :
    decodeM (f + 1) .one ('m' :: cs)
      = (match decNat cs with
        | some (n, cs1) =>
          (match decodeM f (.pairsN n) cs1 with
            | some (.pairs ps, cs2) => some (.one (.vmap ps), cs2)
            | _ => none)
        | none => none) := rfl

theorem decodeM_one_e (f : Nat) (cs : List Char) :
    decodeM (f + 1) .one ('e' :: cs)
      = (match decNat cs with
        | some (n, cs1) =>
          (match decodeM f (.listN n) cs1 with
            | some (.many xs, cs2) => some (.one (.vset xs), cs2)
            | _ => none)
        | none => none) := rfl

theorem decodeM_one_x (f : Nat) (cs : List Char) :
    decodeM (f + 1) .one ('x' :: cs)
      = (decNat cs).map (fun p => (.one (.vfunc p.1), p.2)) := rfl

theorem decodeM_listN_succ (f n : Nat) (cs : List Char) :
    decodeM (f + 1) (.listN (n + 1)) cs
      = (match decodeM f .one cs with
        | some (.one v, cs1) =>
          (match decodeM f (.listN n) cs1 with
            | some (.many xs, cs2) => some (.many (v :: xs), cs2)
            | _ => none)
        | _ => none) := rfl

theorem decodeM_fieldsN_succ (f n : Nat) (cs : List Char) :
    decodeM (f + 1) (.fieldsN (n + 1)) cs
      = (match decStr cs with
        | some (k, cs1) =>
          (match decodeM f .one cs1 with
            | some (.one v, cs2) =>
              (match decodeM f (.fieldsN n) cs2 with
                | some (.fields fs, cs3) =>
                  some (.fields ((k, v) :: fs), cs3)
                | _ => none)
            | _ => none)
        | none => none) := rfl

theorem decodeM_pairsN_succ (f n : Nat) (cs : List Char) :
    decodeM (f + 1) (.pairsN (n + 1)) cs
      = (match decodeM f .one cs with
        | some (.one k, cs1) =>
          (match decodeM f .one cs1 with
            | some (.one v, cs2) =>
              (match decodeM f (.pairsN n) cs2 with
                | some (.pairs ps, cs3) =>
                  some (.pairs ((k, v) :: ps), cs3)
                | _ => none)
            | _ => none)
        | _ => none) := rfl

set_option maxHeartbeats 1600000 in
theorem codec_roundtrip_all : ∀ n : Nat,
    (∀ v : Value, vsize v = n →
      vsize v ≤ (encodeV v).length
      ∧ ∀ (fuel : Nat) (rest : List Char), vsize v ≤ fuel →
          decodeM fuel DecReq.one (encodeV v ++ rest)
            = some (DecRes.one v, rest))
    ∧ (∀ xs : List Value, vsizeList xs = n →
      vsizeList xs ≤ (encodeList xs).length + xs.length
      ∧ ∀ (fuel : Nat) (rest : List Char), vsizeList xs ≤ fuel →
          decodeM fuel (DecReq.listN xs.length) (encodeList xs ++ rest)
            = some (DecRes.many xs, rest))
    ∧ (∀ fs : List (String × Value), vsizeFields fs = n →
      vsizeFields fs ≤ (encodeFields fs).length + fs.length
      ∧ ∀ (fuel : Nat) (rest : List Char), vsizeFields fs ≤ fuel →
          decodeM fuel (DecReq.fieldsN fs.length) (encodeFields fs ++ rest)
            = some (DecRes.fields fs, rest))
    ∧ (∀ ps : List (Value × Value), vsizePairs ps = n →
      vsizePairs ps ≤ (encodePairs ps).length + ps.length
      ∧ ∀ (fuel : Nat) (rest : List Char), vsizePairs ps ≤ fuel →
          decodeM fuel (DecReq.pairsN ps.length) (encodePairs ps ++ rest)
            = some (DecRes.pairs ps, rest)) := by
  intro n
  induction n using Nat.strong_induction_on with
  | _ n ih =>
  refine ⟨?_, ?_, ?_, ?_⟩
  · -- single values
    intro v hv
    cases v with
    | vnull =>
      refine ⟨by simp [vsize, encodeV], ?_⟩
      intro fuel rest hfuel
      simp only [vsize] at hfuel
      obtain ⟨f, rfl⟩ : ∃ f, fuel = f + 1 := ⟨fuel - 1, by omega⟩
      rw [show encodeV .vnull ++ rest = 'n' :: rest from by simp [encodeV],
        decodeM_one_n]
    | vbool b =>
      refine ⟨by cases b <;> simp [vsize, encodeV], ?_⟩
      intro fuel rest hfuel
      simp only [vsize] at hfuel
      obtain ⟨f, rfl⟩ : ∃ f, fuel = f + 1 := ⟨fuel - 1, by omega⟩
      cases b
      · rw [show encodeV (.vbool false) ++ rest = 'f' :: rest from by
          simp [encodeV], decodeM_one_f]
      · rw [show encodeV (.vbool true) ++ rest = 't' :: rest from by
          simp [encodeV], decodeM_one_t]
    | vnum i =>
      refine ⟨by simp [vsize, encodeV], ?_⟩
      intro fuel rest hfuel
      simp only [vsize] at hfuel
      obtain ⟨f, rfl⟩ : ∃ f, fuel = f + 1 := ⟨fuel - 1, by omega⟩
      have h : encodeV (.vnum i) ++ rest = 'i' :: (encInt i ++ rest) := by
        simp [encodeV]
      rw [h, decodeM_one_i, decInt_encInt]
      rfl
    | vstr s =>
      refine ⟨by simp [vsize, encodeV], ?_⟩
      intro fuel rest hfuel
      simp only [vsize] at hfuel
      obtain ⟨f, rfl⟩ : ∃ f, fuel = f + 1 := ⟨fuel - 1, by omega⟩
      have h : encodeV (.vstr s) ++ rest = 's' :: (encStr s ++ rest) := by
        simp [encodeV]
      rw [h, decodeM_one_s, decStr_encStr]
      rfl
    | vdate ms =>
      refine ⟨by simp [vsize, encodeV], ?_⟩
      intro fuel rest hfuel
      simp only [vsize] at hfuel
      obtain ⟨f, rfl⟩ : ∃ f, fuel = f + 1 := ⟨fuel - 1, by omega⟩
      have h : encodeV (.vdate ms) ++ rest = 'd' :: (encInt ms ++ rest) := by
        simp [encodeV]
      rw [h, decodeM_one_d, decInt_encInt]
      rfl
    | vregexp src flags =>
      refine ⟨by simp [vsize, encodeV], ?_⟩
      intro fuel rest hfuel
      simp only [vsize] at hfuel
      obtain ⟨f, rfl⟩ : ∃ f, fuel = f + 1 := ⟨fuel - 1, by omega⟩
      have h : encodeV (.vregexp src flags) ++ rest
          = 'r' :: (encStr src ++ (encStr flags ++ rest)) := by
        simp [encodeV]
      rw [h, decodeM_one_r]
      simp [decStr_encStr]
    | vfunc id =>
      refine ⟨by simp [vsize, encodeV], ?_⟩
      intro fuel rest hfuel
      simp only [vsize] at hfuel
      obtain ⟨f, rfl⟩ : ∃ f, fuel = f + 1 := ⟨fuel - 1, by omega⟩
      have h : encodeV (.vfunc id) ++ rest = 'x' :: (encNat id ++ rest) := by
        simp [encodeV]
      rw [h, decodeM_one_x, decNat_encNat]
      rfl
    | varr xs =>
      have hn : vsizeList xs + 1 = n := by simpa [vsize] using hv
      obtain ⟨ihlen, ihdec⟩ := (ih _ (by omega)).2.1 xs rfl
      constructor
      · simp only [vsize, encodeV, List.length_cons, List.length_append,
          encNat_length]
        omega
      · intro fuel rest hfuel
        simp only [vsize] at hfuel
        obtain ⟨f, rfl⟩ : ∃ f, fuel = f + 1 := ⟨fuel - 1, by omega⟩
        have h : encodeV (.varr xs) ++ rest
            = 'a' :: (encNat xs.length ++ (encodeList xs ++ rest)) := by
          simp [encodeV]
        rw [h, decodeM_one_a]
        simp [decNat_encNat, ihdec f rest (by omega)]
    | vobj fs =>
      have hn : vsizeFields fs + 1 = n := by simpa [vsize] using hv
      obtain ⟨ihlen, ihdec⟩ := (ih _ (by omega)).2.2.1 fs rfl
      constructor
      · simp only [vsize, encodeV, List.length_cons, List.length_append,
          encNat_length]
        omega
      · intro fuel rest hfuel
        simp only [vsize] at hfuel
        obtain ⟨f, rfl⟩ : ∃ f, fuel = f + 1 := ⟨fuel - 1, by omega⟩
        have h : encodeV (.vobj fs) ++ rest
            = 'o' :: (encNat fs.length ++ (encodeFields fs ++ rest)) := by
          simp [encodeV]
        rw [h, decodeM_one_o]
        simp [decNat_encNat, ihdec f rest (by omega)]
    | vmap ps =>
      have hn : vsizePairs ps + 1 = n := by simpa [vsize] using hv
      obtain ⟨ihlen, ihdec⟩ := (ih _ (by omega)).2.2.2 ps rfl
      constructor
      · simp only [vsize, encodeV, List.length_cons, List.length_append,
          encNat_length]
        omega
      · intro fuel rest hfuel
        simp only [vsize] at hfuel
        obtain ⟨f, rfl⟩ : ∃ f, fuel = f + 1 := ⟨fuel - 1, by omega⟩
        have h : encodeV (.vmap ps) ++ rest
            = 'm' :: (encNat ps.length ++ (encodePairs ps ++ rest)) := by
          simp [encodeV]
        rw [h, decodeM_one_m]
        simp [decNat_encNat, ihdec f rest (by omega)]
    | vset xs =>
      have hn : vsizeList xs + 1 = n := by simpa [vsize] using hv
      obtain ⟨ihlen, ihdec⟩ := (ih _ (by omega)).2.1 xs rfl
      constructor
      · simp only [vsize, encodeV, List.length_cons, List.length_append,
          encNat_length]
        omega
      · intro fuel rest hfuel
        simp only [vsize] at hfuel
        obtain ⟨f, rfl⟩ : ∃ f, fuel = f + 1 := ⟨fuel - 1, by omega⟩
        have h : encodeV (.vset xs) ++ rest
            = 'e' :: (encNat xs.length ++ (encodeList xs ++ rest)) := by
          simp [encodeV]
        rw [h, decodeM_one_e]
        simp [decNat_encNat, ihdec f rest (by omega)]
  · -- lists of values
    intro xs hxs
    cases xs with
    | nil =>
      refine ⟨by simp [vsizeList, encodeList], ?_⟩
      intro fuel rest _
      rw [show encodeList [] ++ rest = rest from by simp [encodeList],
        show ([] : List Value).length = 0 from rfl, decodeM_listN_zero]
    | cons x xs' =>
      have hn : vsize x + vsizeList xs' + 1 = n := by
        simpa [vsizeList] using hxs
      have hpos := vsize_pos x
      obtain ⟨ihv, ihvdec⟩ := (ih _ (by omega)).1 x rfl
      obtain ⟨ihl, ihldec⟩ := (ih _ (by omega)).2.1 xs' rfl
      constructor
      · simp only [vsizeList, encodeList, List.length_append,
          List.length_cons]
        omega
      · intro fuel rest hfuel
        simp only [vsizeList] at hfuel
        obtain ⟨f, rfl⟩ : ∃ f, fuel = f + 1 := ⟨fuel - 1, by omega⟩
        have h : encodeList (x :: xs') ++ rest
            = encodeV x ++ (encodeList xs' ++ rest) := by
          simp [encodeList]
        rw [show (x :: xs').length = xs'.length + 1 from rfl, h,
          decodeM_listN_succ]
        simp [ihvdec f (encodeList xs' ++ rest) (by omega),
          ihldec f rest (by omega)]
  · -- object fields
    intro fs hfs
    cases fs with
    | nil =>
      refine ⟨by simp [vsizeFields, encodeFields], ?_⟩
      intro fuel rest _
      rw [show encodeFields [] ++ rest = rest from by simp [encodeFields],
        show ([] : List (String × Value)).length = 0 from rfl,
        decodeM_fieldsN_zero]
    | cons kv fs' =>
      obtain ⟨k, v⟩ := kv
      have hn : vsize v + vsizeFields fs' + 1 = n := by
        simpa [vsizeFields] using hfs
      have hpos := vsize_pos v
      obtain ⟨ihv, ihvdec⟩ := (ih _ (by omega)).1 v rfl
      obtain ⟨ihl, ihldec⟩ := (ih _ (by omega)).2.2.1 fs' rfl
      constructor
      · simp only [vsizeFields, encodeFields, List.length_append,
          List.length_cons]
        omega
      · intro fuel rest hfuel
        simp only [vsizeFields] at hfuel
        obtain ⟨f, rfl⟩ : ∃ f, fuel = f + 1 := ⟨fuel - 1, by omega⟩
        have h : encodeFields ((k, v) :: fs') ++ rest
            = encStr k ++ (encodeV v ++ (encodeFields fs' ++ rest)) := by
          simp [encodeFields]
        rw [show ((k, v) :: fs').length = fs'.length + 1 from rfl, h,
          decodeM_fieldsN_succ]
        simp [decStr_encStr,
          ihvdec f (encodeFields fs' ++ rest) (by omega),
          ihldec f rest (by omega)]
  · -- map pairs
    intro ps hps
    cases ps with
    | nil =>
      refine ⟨by simp [vsizePairs, encodePairs], ?_⟩
      intro fuel rest _
      rw [show encodePairs [] ++ rest = rest from by simp [encodePairs],
        show ([] : List (Value × Value)).length = 0 from rfl,
        decodeM_pairsN_zero]
    | cons kv ps' =>
      obtain ⟨k, v⟩ := kv
      have hn : vsize k + vsize v + vsizePairs ps' + 1 = n := by
        simpa [vsizePairs] using hps
      have hposk := vsize_pos k
      have hposv := vsize_pos v
      obtain ⟨ihk, ihkdec⟩ := (ih _ (by omega)).1 k rfl
      obtain ⟨ihv, ihvdec⟩ := (ih _ (by omega)).1 v rfl
      obtain ⟨ihl, ihldec⟩ := (ih _ (by omega)).2.2.2 ps' rfl
      constructor
      · simp only [vsizePairs, encodePairs, List.length_append,
          List.length_cons]
        omega
      · intro fuel rest hfuel
        simp only [vsizePairs] at hfuel
        obtain ⟨f, rfl⟩ : ∃ f, fuel = f + 1 := ⟨fuel - 1, by omega⟩
        have h : encodePairs ((k, v) :: ps') ++ rest
            = encodeV k ++ (encodeV v ++ (encodePairs ps' ++ rest)) := by
          simp [encodePairs]
        rw [show ((k, v) :: ps').length = ps'.length + 1 from rfl, h,
          decodeM_pairsN_succ]
        simp [ihkdec f (encodeV v ++ (encodePairs ps' ++ rest)) (by omega),
          ihvdec f (encodePairs ps' ++ rest) (by omega),
          ihldec f rest (by omega)]

theorem encodeV_length_ge (v : Value) : vsize v ≤ (encodeV v).length :=
  ((codec_roundtrip_all (vsize v)).1 v rfl).1

theorem decodeV_encodeV (v : Value) (fuel : Nat) (rest : List Char)
    (h : vsize v ≤ fuel) :
    decodeV fuel (encodeV v ++ rest) = some (v, rest) := by
  unfold decodeV
  rw [((codec_roundtrip_all (vsize v)).1 v rfl).2 fuel rest h]

/--
C6: for every serializable prop graph (no functions anywhere; nested
`Date`, `RegExp`, `Map`, `Set`, objects, arrays, strings, numbers,
booleans and null), decoding the string produced by `encode` yields the
original graph: `decode` is the exact inverse of `encode`.
-/
theorem devalue_roundtrip (p : Value) (hp : containsFunc p = false) :
    ∃ s, encode p = Except.ok s ∧ decode s = some p := by
  refine ⟨String.mk (encodeV p), ?_, ?_⟩
  · simp [encode, hp]
  · unfold decode
    rw [show (String.mk (encodeV p)).data = encodeV p from rfl]
    have h := decodeV_encodeV p (encodeV p).length [] (encodeV_length_ge p)
    rw [List.append_nil] at h
    rw [show (String.mk (encodeV p)).data.length = (encodeV p).length from rfl]
    rw [h]

/-- C6 witness: a nested graph with date, regexp, map, set values. -/
theorem devalue_roundtrip_witness :
    containsFunc
        (Value.vobj
          [("a", Value.varr [Value.vnum 1, Value.vstr "x", Value.vbool true,
              Value.vnull]),
            ("d", Value.vdate 90),
            ("r", Value.vregexp "ab" "g"),
            ("m", Value.vmap [(Value.vstr "k", Value.vnum (-2))]),
            ("s", Value.vset [Value.vnull])]) = false
    ∧ ∃ s,
        encode (Value.vobj
          [("a", Value.varr [Value.vnum 1, Value.vstr "x", Value.vbool true,
              Value.vnull]),
            ("d", Value.vdate 90),
            ("r", Value.vregexp "ab" "g"),
            ("m", Value.vmap [(Value.vstr "k", Value.vnum (-2))]),
            ("s", Value.vset [Value.vnull])]) = Except.ok s
        ∧ decode s = some (Value.vobj
          [("a", Value.varr [Value.vnum 1, Value.vstr "x", Value.vbool true,
              Value.vnull]),
            ("d", Value.vdate 90),
            ("r", Value.vregexp "ab" "g"),
            ("m", Value.vmap [(Value.vstr "k", Value.vnum (-2))]),
            ("s", Value.vset [Value.vnull])]) := by
  have hf : containsFunc
      (Value.vobj
        [("a", Value.varr [Value.vnum 1, Value.vstr "x", Value.vbool true,
            Value.vnull]),
          ("d", Value.vdate 90),
          ("r", Value.vregexp "ab" "g"),
          ("m", Value.vmap [(Value.vstr "k", Value.vnum (-2))]),
          ("s", Value.vset [Value.vnull])]) = false := by
    simp [containsFunc, containsFuncFields, containsFuncList,
      containsFuncPairs]
  exact ⟨hf, devalue_roundtrip _ hf⟩

/--
C7: for every prop graph containing a function value anywhere in the
structure, the prop serialization inside `render` fails with the
serialization error, so the render call rejects instead of dispatching
the cross-runtime command with the value.
-/
theorem render_rejects_function_props
    (fields props : List (String × Value)) (slots : List (String × String))
    (hflag : astroComponentFlag (Value.vobj fields) = true)
    (hfn : containsFuncFields props = true) :
    encode (Value.vobj props) = Except.error SerializationError.functionValue
    ∧ render (Value.vobj fields) (some props) slots
        = Except.error (RenderError.serializationFailed
            SerializationError.functionValue) := by
  have henc : encode (Value.vobj props)
      = Except.error SerializationError.functionValue := by
    simp [encode, containsFunc, hfn]
  have hf : truthyProp fields "__astroComponent" = true := by
    simpa [astroComponentFlag] using hflag
  refine ⟨henc, ?_⟩
  simp [render, hf, henc]

/-- C7 witness. -/
theorem render_rejects_function_props_witness :
    (astroComponentFlag
        (Value.vobj [("__astroComponent", Value.vbool true)]) = true
      ∧ containsFuncFields
          [("title", Value.vstr "t"), ("cb", Value.vfunc 0)] = true)
    ∧ encode (Value.vobj [("title", Value.vstr "t"), ("cb", Value.vfunc 0)])
        = Except.error SerializationError.functionValue := by
  have hfn : containsFuncFields
      [("title", Value.vstr "t"), ("cb", Value.vfunc 0)] = true := by
    simp [containsFuncFields, containsFunc]
  refine ⟨⟨rfl, hfn⟩, ?_⟩
  exact (render_rejects_function_props [("__astroComponent", Value.vbool true)]
    [("title", Value.vstr "t"), ("cb", Value.vfunc 0)] [] rfl hfn).1

end VBA
